import Mathlib

/-!
# Order matching engine: embedding and verification

Shallow embedding of `api/v1/services/matcher.go` together with the parts of
`api/v1/models`, `api/v1/utils` and `api/v1/controllers/orders` it relies on.

Modelling conventions.

* Go `uint` is a `Nat` below `2 ^ 64`; `+` and `-` on it are `uintAdd` and
  `uintSub`, which wrap modulo `2 ^ 64`.
* Go `float64` prices are exact integers (`Int`, price ticks); the engine only
  copies and compares prices.
* The string-typed enumerations stay strings, so values outside the declared
  constants are representable, as they are in Go.
* `time.Time` is a `Nat`. The columns `updated_at` and `executed_at`, written
  from the database clock and never read by the engine, are left out, as are
  the auto-increment `id` of a trade and the nil pointers of a `Trade`.
* The database is a pair of tables. A transaction works on a private copy that
  replaces the committed tables on `Commit` and is dropped on `Rollback`.
* A store operation may fail. `failAt = some n` lets the next `n` operations
  succeed and fails the one after; `none` never fails.
* `ORDER BY` is a stable insertion sort of the table in insertion order.
-/

namespace OrderMatching

/-! ## models/types.go -/

abbrev OrderType := String
abbrev OrderCategory := String
abbrev OrderStatus := String
abbrev StockSymbol := String

abbrev OrderTypeBuy : OrderType := "BUY"
abbrev OrderTypeSell : OrderType := "SELL"

abbrev OrderCategoryLimit : OrderCategory := "LIMIT"
abbrev OrderCategoryMarket : OrderCategory := "MARKET"

abbrev OrderStatusPending : OrderStatus := "PENDING"
abbrev OrderStatusPartiallyFilled : OrderStatus := "PARTIALLY_FILLED"
abbrev OrderStatusMatched : OrderStatus := "MATCHED"
abbrev OrderStatusCancelled : OrderStatus := "CANCELLED"

/-! ## Machine integers -/

/-- Number of values of a Go `uint` on a 64-bit target. -/
def uintSize : Nat := 2 ^ 64

/-- Go `a - b` on `uint`. -/
def uintSub (a b : Nat) : Nat := (a + uintSize - b) % uintSize

/-- Go `a + b` on `uint`. -/
def uintAdd (a b : Nat) : Nat := (a + b) % uintSize

/-! ## models/models.go -/

/-- Stock represents a stock in the system. -/
structure Stock where
  Symbol : StockSymbol
  Name : String
  Description : String
  CurrentPrice : Int
  DayHigh : Int
  DayLow : Int
  Volume : Int
  MarketCap : Int
  Sector : String
  LastUpdated : Nat
deriving DecidableEq, Repr

/-- Order represents a trading order (`Typ` is the Go field `Type`). -/
structure Order where
  ID : Nat
  Typ : OrderType
  Category : OrderCategory
  StockSymbol : StockSymbol
  Quantity : Nat
  FilledQuantity : Nat
  Price : Int
  Status : OrderStatus
  UserID : Nat
  CreatedAt : Nat
  Stock : Option Stock
deriving DecidableEq, Repr

/-- Trade represents a matched trade between two orders: the columns that
`ProcessOrder` inserts. -/
structure Trade where
  BuyOrderID : Nat
  SellOrderID : Nat
  StockSymbol : StockSymbol
  Quantity : Nat
  Price : Int
deriving DecidableEq, Repr

/-- Committed contents of the database. -/
structure Store where
  orders : List Order
  trades : List Trade
  stocks : List Stock
deriving DecidableEq, Repr

/-- An open transaction `*sql.Tx`: its working copy of the two tables the
engine writes, and the number of store operations that still succeed. -/
structure Tx where
  orders : List Order
  trades : List Trade
  failAt : Option Nat
deriving DecidableEq, Repr

/-- One round trip to the store: `none` when the operation fails. -/
def tick (failAt : Option Nat) : Option (Option Nat) :=
  match failAt with
  | none => some none
  | some 0 => none
  | some (n + 1) => some (some n)

/-- `m.db.Begin()`. -/
def Begin (db : Store) (failAt : Option Nat) : Option Tx :=
  match tick failAt with
  | none => none
  | some f => some { orders := db.orders, trades := db.trades, failAt := f }

/-- `tx.Commit()`: the working copy becomes the committed state. -/
def Commit (db : Store) (tx : Tx) : Option Store :=
  match tick tx.failAt with
  | none => none
  | some _ => some { db with orders := tx.orders, trades := tx.trades }

/-- `rows.Scan` into a fresh `models.Order`: the `Stock` pointer stays nil. -/
def scanOrder (row : Order) : Order := { row with Stock := none }

/-! ## services/matcher.go -/

/-- OrderMatcher handles the order matching logic. -/
structure OrderMatcher where
  db : Store
  BuyOrders : List Order
  SellOrders : List Order
deriving DecidableEq, Repr

/-- GetOrderMatcher: the singleton as first created, over a given database. -/
def GetOrderMatcher (db : Store) : OrderMatcher :=
  { db := db, BuyOrders := [], SellOrders := [] }

/-- The `WHERE` clause of `getMatchingSellOrders`. -/
def sellEligible (buyOrder : Order) (o : Order) : Bool :=
  decide (o.Typ = "SELL") && decide (o.StockSymbol = buyOrder.StockSymbol) &&
  (decide (o.Status = "PENDING") || decide (o.Status = "PARTIALLY_FILLED")) &&
  (if buyOrder.Category = OrderCategoryLimit then decide (o.Price ≤ buyOrder.Price) else true)

/-- The `WHERE` clause of `getMatchingBuyOrders`. -/
def buyEligible (sellOrder : Order) (o : Order) : Bool :=
  decide (o.Typ = "BUY") && decide (o.StockSymbol = sellOrder.StockSymbol) &&
  (decide (o.Status = "PENDING") || decide (o.Status = "PARTIALLY_FILLED")) &&
  (if sellOrder.Category = OrderCategoryLimit then decide (o.Price ≥ sellOrder.Price) else true)

/-- `ORDER BY price ASC, created_at ASC`. -/
def askBefore (a b : Order) : Prop :=
  a.Price < b.Price ∨ (a.Price = b.Price ∧ a.CreatedAt ≤ b.CreatedAt)

/-- `ORDER BY price DESC, created_at ASC`. -/
def bidBefore (a b : Order) : Prop :=
  b.Price < a.Price ∨ (a.Price = b.Price ∧ a.CreatedAt ≤ b.CreatedAt)

instance : DecidableRel askBefore := fun a b =>
  inferInstanceAs
    (Decidable (a.Price < b.Price ∨ (a.Price = b.Price ∧ a.CreatedAt ≤ b.CreatedAt)))

instance : DecidableRel bidBefore := fun a b =>
  inferInstanceAs
    (Decidable (b.Price < a.Price ∨ (a.Price = b.Price ∧ a.CreatedAt ≤ b.CreatedAt)))

instance : IsTotal Order askBefore := ⟨fun a b => by unfold askBefore; omega⟩
instance : IsTrans Order askBefore := ⟨fun a b c => by unfold askBefore; omega⟩
instance : IsTotal Order bidBefore := ⟨fun a b => by unfold bidBefore; omega⟩
instance : IsTrans Order bidBefore := ⟨fun a b c => by unfold bidBefore; omega⟩

/-- Rows returned by the query of `getMatchingSellOrders`. -/
def sellRows (orders : List Order) (buyOrder : Order) : List Order :=
  ((orders.filter (sellEligible buyOrder)).insertionSort askBefore).map scanOrder

/-- Rows returned by the query of `getMatchingBuyOrders`. -/
def buyRows (orders : List Order) (sellOrder : Order) : List Order :=
  ((orders.filter (buyEligible sellOrder)).insertionSort bidBefore).map scanOrder

/-- getMatchingSellOrders: `none` is the error return. -/
def getMatchingSellOrders (tx : Tx) (buyOrder : Order) : Option (Tx × List Order) :=
  match tick tx.failAt with
  | none => none
  | some f => some ({ tx with failAt := f }, sellRows tx.orders buyOrder)

/-- getMatchingBuyOrders: `none` is the error return. -/
def getMatchingBuyOrders (tx : Tx) (sellOrder : Order) : Option (Tx × List Order) :=
  match tick tx.failAt with
  | none => none
  | some f => some ({ tx with failAt := f }, buyRows tx.orders sellOrder)

/-- The `UPDATE orders SET filled_quantity, status WHERE id` of `updateOrder`,
on the table. -/
def updateRows (orders : List Order) (order : Order) : List Order :=
  orders.map fun row =>
    if row.ID = order.ID then
      { row with FilledQuantity := order.FilledQuantity, Status := order.Status }
    else row

/-- updateOrder: `none` is the error return. -/
def updateOrder (tx : Tx) (order : Order) : Option Tx :=
  match tick tx.failAt with
  | none => none
  | some f => some { tx with orders := updateRows tx.orders order, failAt := f }

/-- The `INSERT INTO trades` of `ProcessOrder`: `none` is the error return. -/
def insertTrade (tx : Tx) (trade : Trade) : Option Tx :=
  match tick tx.failAt with
  | none => none
  | some f => some { tx with trades := tx.trades ++ [trade], failAt := f }

/-- Go `min` on `uint`. -/
def min (a b : Nat) : Nat := if a < b then a else b

/-- Trade quantity of one loop iteration (matcher.go lines 81-83). -/
def tradeQuantity (order matchingOrder : Order) : Nat :=
  let remainingQuantity := uintSub order.Quantity order.FilledQuantity
  let matchingRemaining := uintSub matchingOrder.Quantity matchingOrder.FilledQuantity
  OrderMatching.min remainingQuantity matchingRemaining

/-- Trade price of one loop iteration (matcher.go lines 88-99). -/
def tradePrice (order matchingOrder : Order) : Int :=
  if order.Category = OrderCategoryLimit ∧ matchingOrder.Category = OrderCategoryLimit then
    matchingOrder.Price
  else
    if order.Category = OrderCategoryLimit then order.Price else matchingOrder.Price

/-- The trade record of one loop iteration (matcher.go lines 102-117). -/
def newTrade (order matchingOrder : Order) : Trade :=
  { BuyOrderID := if order.Typ = OrderTypeBuy then order.ID else matchingOrder.ID
    SellOrderID := if order.Typ = OrderTypeBuy then matchingOrder.ID else order.ID
    StockSymbol := order.StockSymbol
    Quantity := tradeQuantity order matchingOrder
    Price := tradePrice order matchingOrder }

/-- Fill an order by `tradeQuantity` and set its status as the loop does
(matcher.go lines 131-136 and 144-149). -/
def applyFill (o : Order) (tradeQuantity : Nat) : Order :=
  let filled := uintAdd o.FilledQuantity tradeQuantity
  { o with
    FilledQuantity := filled
    Status := if filled ≥ o.Quantity then OrderStatusMatched else OrderStatusPartiallyFilled }

/-- The `for _, matchingOrder := range matchingOrders` loop of `ProcessOrder`.
Returns the transaction, the incoming order as mutated so far and the error
of an early `return`. -/
def matchLoop (tx : Tx) (order : Order) : List Order → Tx × Order × Option String
  | [] => (tx, order, none)
  | matchingOrder :: rest =>
    if order.FilledQuantity ≥ order.Quantity then (tx, order, none)
    else
      match insertTrade tx (newTrade order matchingOrder) with
      | none => (tx, order, some "failed to create trade")
      | some tx1 =>
        match updateOrder tx1 (applyFill matchingOrder (tradeQuantity order matchingOrder)) with
        | none => (tx1, order, some "failed to update matching order")
        | some tx2 =>
          matchLoop tx2 (applyFill order (tradeQuantity order matchingOrder)) rest

/-- What a call leaves behind: the engine, the caller's `*order`, the error. -/
structure Outcome where
  matcher : OrderMatcher
  order : Order
  err : Option String
deriving DecidableEq, Repr

/-- The tail of `ProcessOrder` after the loop (matcher.go lines 152-174). -/
def finishOrder (m : OrderMatcher) (tx : Tx) (order : Order) : Outcome :=
  let order1 : Order :=
    if order.Category = OrderCategoryMarket ∧ order.FilledQuantity < order.Quantity then
      { order with Status := OrderStatusCancelled }
    else order
  let m1 : OrderMatcher :=
    if order.Category = OrderCategoryMarket ∧ order.FilledQuantity < order.Quantity then m
    else if order.FilledQuantity < order.Quantity then
      if order.Typ = OrderTypeBuy then { m with BuyOrders := m.BuyOrders ++ [order] }
      else { m with SellOrders := m.SellOrders ++ [order] }
    else m
  match updateOrder tx order1 with
  | none => ⟨m1, order1, some "failed to update order"⟩
  | some tx1 =>
    match Commit m.db tx1 with
    | none => ⟨m1, order1, some "failed to commit transaction"⟩
    | some db => ⟨{ m1 with db := db }, order1, none⟩

/-- ProcessOrder processes a new order and attempts to match it. -/
def ProcessOrder (m : OrderMatcher) (failAt : Option Nat) (order : Order) : Outcome :=
  match Begin m.db failAt with
  | none => ⟨m, order, some "failed to begin transaction"⟩
  | some tx0 =>
    match (if order.Typ = OrderTypeBuy then getMatchingSellOrders tx0 order
           else getMatchingBuyOrders tx0 order) with
    | none => ⟨m, order, some "failed to get matching orders"⟩
    | some (tx, matchingOrders) =>
      if order.Category = OrderCategoryMarket ∧ matchingOrders.length = 0 then
        let order1 : Order := { order with Status := OrderStatusCancelled }
        match updateOrder tx order1 with
        | none => ⟨m, order1, some "failed to cancel market order"⟩
        | some tx1 =>
          match Commit m.db tx1 with
          | none => ⟨m, order1, some "failed to commit transaction"⟩
          | some db => ⟨{ m with db := db }, order1, none⟩
      else
        match matchLoop tx order matchingOrders with
        | (_, order1, some e) => ⟨m, order1, some e⟩
        | (tx1, order1, none) => finishOrder m tx1 order1

/-- The eligible opposite-side sequence `ProcessOrder` fetches for `order`. -/
def matchingOrdersFor (db : Store) (order : Order) : List Order :=
  if order.Typ = OrderTypeBuy then sellRows db.orders order else buyRows db.orders order

/-- Trades a call added to the committed trades table. -/
def emittedTrades (m : OrderMatcher) (failAt : Option Nat) (order : Order) : List Trade :=
  (ProcessOrder m failAt order).matcher.db.trades.drop m.db.trades.length

/-! ## utils/order_utils.go, utils/stock_utils.go, utils/validation_utils.go -/

/-- IsOrderActive returns true if the order is still active. -/
def IsOrderActive (order : Order) : Bool :=
  decide (order.Status = OrderStatusPending) || decide (order.Status = OrderStatusPartiallyFilled)

/-- GetRemainingQuantity returns the unfilled quantity of the order. -/
def GetRemainingQuantity (order : Order) : Nat :=
  uintSub order.Quantity order.FilledQuantity

/-- UpdateOrderStatus updates the order status based on filled quantity. -/
def UpdateOrderStatus (order : Order) : Order :=
  if order.FilledQuantity = 0 then { order with Status := OrderStatusPending }
  else if order.FilledQuantity < order.Quantity then
    { order with Status := OrderStatusPartiallyFilled }
  else { order with Status := OrderStatusMatched }

/-- GetAllStockSymbols returns all available stock symbols. -/
def GetAllStockSymbols : List StockSymbol :=
  ["NXTECH", "QNTUM", "CYBEX", "SOLRX", "FUSON", "GENUM", "MEDIX", "AITHN", "NRLNK", "COGNT"]

/-- The function isValidStockSymbol checks if a given stock symbol is valid. -/
def isValidStockSymbol (symbol : StockSymbol) : Bool :=
  GetAllStockSymbols.any fun s => decide (s = symbol)

abbrev ErrInvalidOrderType : String := "invalid order type"
abbrev ErrInvalidOrderCategory : String := "invalid order category"
abbrev ErrInvalidPrice : String :=
  "price is required and must be greater than 0 for limit order"
abbrev ErrInvalidQuantity : String := "quantity must be greater than 0"
abbrev ErrInvalidStockSymbol : String := "invalid stock symbol"
abbrev ErrInvalidStockPrice : String := "price must be greater than 0"
abbrev ErrInvalidTradeOrders : String := "both buy and sell order IDs are required"
abbrev ErrSameOrderTrade : String := "buy and sell order IDs cannot be the same"

/-- ValidateOrder performs validation on the order: `none` is `nil`. -/
def ValidateOrder (order : Order) : Option String :=
  if ¬ (order.Typ = OrderTypeBuy ∨ order.Typ = OrderTypeSell) then some ErrInvalidOrderType
  else if ¬ (order.Category = OrderCategoryLimit ∨ order.Category = OrderCategoryMarket) then
    some ErrInvalidOrderCategory
  else if !isValidStockSymbol order.StockSymbol then some ErrInvalidStockSymbol
  else if order.Category = OrderCategoryLimit ∧ order.Price ≤ 0 then some ErrInvalidPrice
  else if order.Quantity ≤ 0 then some ErrInvalidQuantity
  else none

/-- ValidateTrade performs validation on the trade: `none` is `nil`. -/
def ValidateTrade (trade : Trade) : Option String :=
  if !isValidStockSymbol trade.StockSymbol then some ErrInvalidStockSymbol
  else if trade.Quantity = 0 then some ErrInvalidQuantity
  else if trade.Price ≤ 0 then some ErrInvalidStockPrice
  else if trade.BuyOrderID = 0 ∨ trade.SellOrderID = 0 then some ErrInvalidTradeOrders
  else if trade.BuyOrderID = trade.SellOrderID then some ErrSameOrderTrade
  else none

/-! ## models/models.go: the queries the controllers use -/

/-- GetStockBySymbol retrieves a stock by its symbol: `none` is the error of an
absent row. -/
def models.GetStockBySymbol (db : Store) (symbol : StockSymbol) : Option Stock :=
  db.stocks.find? fun s => decide (s.Symbol = symbol)

/-- GetOrderByID retrieves an order by its ID, with its stock loaded: `none` is
the error of an absent row. -/
def models.GetOrderByID (db : Store) (id : Nat) : Option Order :=
  match db.orders.find? (fun o => decide (o.ID = id)) with
  | none => none
  | some row =>
    match models.GetStockBySymbol db row.StockSymbol with
    | none => none
    | some stock => some { scanOrder row with Stock := some stock }

/-- The auto-increment id the orders table hands out next. -/
def nextOrderID (db : Store) : Nat :=
  (db.orders.map fun o => o.ID).foldr max 0 + 1

/-- CreateOrder creates a new order in the database, at database time `now`;
returns the order with its `ID` set from `LastInsertId`. -/
def models.CreateOrder (db : Store) (now : Nat) (order : Order) : Store × Order :=
  ({ db with orders := db.orders ++
      [{ order with ID := nextOrderID db, CreatedAt := now, Stock := none }] },
   { order with ID := nextOrderID db })

/-! ## services/matcher.go: cancellation -/

/-- The removal loop of `CancelOrder`: drops the first entry with the id. -/
def removeFirst (id : Nat) : List Order → List Order
  | [] => []
  | o :: rest => if o.ID = id then rest else o :: removeFirst id rest

/-- CancelOrder cancels a pending order. -/
def CancelOrder (m : OrderMatcher) (failAt : Option Nat) (order : Order) : Outcome :=
  match Begin m.db failAt with
  | none => ⟨m, order, some "failed to begin transaction"⟩
  | some tx =>
    let order1 : Order := { order with Status := OrderStatusCancelled }
    match updateOrder tx order1 with
    | none => ⟨m, order1, some "failed to update order"⟩
    | some tx1 =>
      let m1 : OrderMatcher :=
        if order.Typ = OrderTypeBuy then
          { m with BuyOrders := removeFirst order.ID m.BuyOrders }
        else { m with SellOrders := removeFirst order.ID m.SellOrders }
      match Commit m.db tx1 with
      | none => ⟨m1, order1, some "failed to commit transaction"⟩
      | some db => ⟨{ m1 with db := db }, order1, none⟩

/-! ## controllers/orders/orders.go -/

/-- OrderRequest represents the request body for creating an order. -/
structure OrderRequest where
  Typ : OrderType
  Category : OrderCategory
  StockSymbol : StockSymbol
  Quantity : Nat
  Price : Int
  UserID : Nat
deriving DecidableEq, Repr

/-- The order value `CreateOrder` builds from a request. -/
def orderOfRequest (req : OrderRequest) : Order :=
  { ID := 0, Typ := req.Typ, Category := req.Category, StockSymbol := req.StockSymbol,
    Quantity := req.Quantity, FilledQuantity := 0, Price := req.Price,
    Status := OrderStatusPending, UserID := req.UserID, CreatedAt := 0, Stock := none }

/-- CreateOrder handles the creation of a new order. Returns the engine and the
HTTP status. `failAt` counts the stock lookup, the insert and then the store
operations of `ProcessOrder`; the reload for the response body only reads and
is taken to find the row it asks for. -/
def orders.CreateOrder (m : OrderMatcher) (failAt : Option Nat) (now : Nat)
    (req : OrderRequest) : OrderMatcher × Nat :=
  match tick failAt with
  | none => (m, 400)
  | some f1 =>
    match models.GetStockBySymbol m.db req.StockSymbol with
    | none => (m, 400)
    | some _ =>
      match tick f1 with
      | none => (m, 500)
      | some f2 =>
        let res := ProcessOrder
          { m with db := (models.CreateOrder m.db now (orderOfRequest req)).1 } f2
          (models.CreateOrder m.db now (orderOfRequest req)).2
        match res.err with
        | some _ => (res.matcher, 500)
        | none =>
          match res.matcher.db.orders.find? (fun o => decide (o.ID = res.order.ID)) with
          | none => (res.matcher, 500)
          | some _ => (res.matcher, 200)

/-- CancelOrder cancels a specific order: the order is read from the store,
then handed to the engine. `failAt` counts the two reads of `GetOrderByID` and
then the store operations of the engine's `CancelOrder`. -/
def orders.CancelOrder (m : OrderMatcher) (failAt : Option Nat) (id : Nat) :
    OrderMatcher × Nat :=
  match tick failAt with
  | none => (m, 404)
  | some f1 =>
    match tick f1 with
    | none => (m, 404)
    | some f2 =>
      match models.GetOrderByID m.db id with
      | none => (m, 404)
      | some order =>
        match (OrderMatching.CancelOrder m f2 order).err with
        | some _ => ((OrderMatching.CancelOrder m f2 order).matcher, 500)
        | none => ((OrderMatching.CancelOrder m f2 order).matcher, 200)

/-! ## Functions used to state and prove the properties -/

/-- Trades the loop inserts when no store operation fails. -/
def loopTrades (order : Order) : List Order → List Trade
  | [] => []
  | r :: rest =>
    if order.FilledQuantity ≥ order.Quantity then []
    else newTrade order r :: loopTrades (applyFill order (tradeQuantity order r)) rest

/-- Resting orders as the loop writes them when no store operation fails. -/
def loopWrites (order : Order) : List Order → List Order
  | [] => []
  | r :: rest =>
    if order.FilledQuantity ≥ order.Quantity then []
    else applyFill r (tradeQuantity order r) ::
      loopWrites (applyFill order (tradeQuantity order r)) rest

/-- The incoming order after the loop when no store operation fails. -/
def loopOrder (order : Order) : List Order → Order
  | [] => order
  | r :: rest =>
    if order.FilledQuantity ≥ order.Quantity then order
    else loopOrder (applyFill order (tradeQuantity order r)) rest

/-- The outcome of a call in which no store operation fails. -/
def successOutcome (m : OrderMatcher) (order : Order) : Outcome :=
  if order.Category = OrderCategoryMarket ∧ (matchingOrdersFor m.db order).length = 0 then
    ⟨{ m with db := { m.db with
          orders := updateRows m.db.orders { order with Status := OrderStatusCancelled } } },
      { order with Status := OrderStatusCancelled }, none⟩
  else
    finishOrder m
      { orders := (loopWrites order (matchingOrdersFor m.db order)).foldl updateRows m.db.orders
        trades := m.db.trades ++ loopTrades order (matchingOrdersFor m.db order)
        failAt := none }
      (loopOrder order (matchingOrdersFor m.db order))

/-- Remaining quantity of a resting order as a natural number. -/
def remaining (o : Order) : Nat := o.Quantity - o.FilledQuantity

/-- Counterparty id of a trade, seen from the incoming order. -/
def restingID (order : Order) (t : Trade) : Nat :=
  if order.Typ = OrderTypeBuy then t.SellOrderID else t.BuyOrderID

/-- One `UPDATE` of `updateOrder`, seen from one row. -/
def updateRow (row w : Order) : Order :=
  if row.ID = w.ID then
    { row with FilledQuantity := w.FilledQuantity, Status := w.Status }
  else row

/-- The fields of an order that neither the loop nor `updateOrder` writes agree. -/
def sameStatic (a b : Order) : Prop :=
  a.ID = b.ID ∧ a.Typ = b.Typ ∧ a.Category = b.Category ∧ a.StockSymbol = b.StockSymbol ∧
  a.Quantity = b.Quantity ∧ a.Price = b.Price ∧ a.UserID = b.UserID ∧
  a.CreatedAt = b.CreatedAt ∧ a.Stock = b.Stock

/-! ## Example data -/

/-- An order of user 1 on NXTECH. -/
def exOrder (id : Nat) (typ : OrderType) (category : OrderCategory) (quantity filled : Nat)
    (price : Int) (status : OrderStatus) (createdAt : Nat) : Order :=
  { ID := id, Typ := typ, Category := category, StockSymbol := "NXTECH", Quantity := quantity,
    FilledQuantity := filled, Price := price, Status := status, UserID := 1,
    CreatedAt := createdAt, Stock := none }

/-- The NXTECH row of the stocks table. -/
def nxtech : Stock :=
  { Symbol := "NXTECH", Name := "NexTech", Description := "", CurrentPrice := 100,
    DayHigh := 110, DayLow := 90, Volume := 1000, MarketCap := 1000000,
    Sector := "Technology", LastUpdated := 0 }

/-- A newly created engine over a database holding `rows` and no trade. -/
def exEngine (rows : List Order) : OrderMatcher :=
  GetOrderMatcher { orders := rows, trades := [], stocks := [nxtech] }

/-- A request of user 1 on NXTECH. -/
def exRequest (typ : OrderType) (category : OrderCategory) (quantity : Nat) (price : Int) :
    OrderRequest :=
  { Typ := typ, Category := category, StockSymbol := "NXTECH", Quantity := quantity,
    Price := price, UserID := 1 }

/-- Two resting asks at 9 and the row of an incoming bid for 50 at 10. -/
def twoAsks : OrderMatcher :=
  exEngine [exOrder 1 "SELL" "LIMIT" 30 0 9 "PENDING" 1,
            exOrder 2 "SELL" "LIMIT" 40 0 9 "PENDING" 2,
            exOrder 3 "BUY" "LIMIT" 50 0 10 "PENDING" 3]

/-- The incoming bid for 50 at 10 as `CreateOrder` hands it to the engine. -/
def bid50 : Order := exOrder 3 "BUY" "LIMIT" 50 0 10 "PENDING" 0

/-- One resting ask for 40 at 9 and the row of an incoming bid for 100 at 10. -/
def oneAsk : OrderMatcher :=
  exEngine [exOrder 1 "SELL" "LIMIT" 40 0 9 "PENDING" 1,
            exOrder 2 "BUY" "LIMIT" 100 0 10 "PENDING" 2]

/-- The incoming bid for 100 at 10. -/
def bid100 : Order := exOrder 2 "BUY" "LIMIT" 100 0 10 "PENDING" 0

/-- An ask of quantity 0 at 10, PENDING in the store, and the row of an incoming
bid for 5 at 10. -/
def zeroAskBook : OrderMatcher :=
  exEngine [exOrder 1 "SELL" "LIMIT" 0 0 10 "PENDING" 1,
            exOrder 2 "BUY" "LIMIT" 5 0 10 "PENDING" 2]

/-- The incoming bid for 5 at 10. -/
def bid5 : Order := exOrder 2 "BUY" "LIMIT" 5 0 10 "PENDING" 0

/-- An ask for 5 at price 0, resting in the store and in `SellOrders`, and the
row of an incoming market bid for 5. -/
def zeroPriceBook : OrderMatcher :=
  { db := { orders := [exOrder 1 "SELL" "LIMIT" 5 0 0 "PENDING" 1,
                       exOrder 2 "BUY" "MARKET" 5 0 0 "PENDING" 2],
            trades := [], stocks := [nxtech] }
    BuyOrders := []
    SellOrders := [exOrder 1 "SELL" "LIMIT" 5 0 0 "PENDING" 0] }

/-- The incoming market bid for 5. -/
def marketBid5 : Order := exOrder 2 "BUY" "MARKET" 5 0 0 "PENDING" 0

/-- An ask for 5 at 10, resting in the store and in `SellOrders`, and the row of
an incoming market bid of quantity 0. -/
def askAndZeroMarketBid : OrderMatcher :=
  { db := { orders := [exOrder 1 "SELL" "LIMIT" 5 0 10 "PENDING" 1,
                       exOrder 2 "BUY" "MARKET" 0 0 0 "PENDING" 2],
            trades := [], stocks := [nxtech] }
    BuyOrders := []
    SellOrders := [exOrder 1 "SELL" "LIMIT" 5 0 10 "PENDING" 0] }

/-- The incoming market bid of quantity 0. -/
def marketBid0 : Order := exOrder 2 "BUY" "MARKET" 0 0 0 "PENDING" 0

/-- An empty book with the row of an incoming bid for 5 at 10. -/
def loneBid : OrderMatcher := exEngine [exOrder 1 "BUY" "LIMIT" 5 0 10 "PENDING" 1]

/-- The incoming bid for 5 at 10 of `loneBid`. -/
def firstBid : Order := exOrder 1 "BUY" "LIMIT" 5 0 10 "PENDING" 0

/-- An empty book with the row of an incoming market bid for 5. -/
def loneMarketBid : OrderMatcher := exEngine [exOrder 1 "BUY" "MARKET" 5 0 0 "PENDING" 1]

/-- The incoming market bid for 5 of `loneMarketBid`. -/
def firstMarketBid : Order := exOrder 1 "BUY" "MARKET" 5 0 0 "PENDING" 0

/-! ## Reachable engine states and example data for cancellation -/

/-- Engine states the API reaches from a newly created engine over a store
without orders, by requests answered 200: each `submit` step is one insert and
one successful `ProcessOrder`, each `cancel` step one read and one successful
`CancelOrder`. -/
inductive Reachable : OrderMatcher → Prop
  | start (stocks : List Stock) :
      Reachable (GetOrderMatcher { orders := [], trades := [], stocks := stocks })
  | submit {m : OrderMatcher} (failAt : Option Nat) (now : Nat) (req : OrderRequest) :
      Reachable m → (orders.CreateOrder m failAt now req).2 = 200 →
      Reachable (orders.CreateOrder m failAt now req).1
  | cancel {m : OrderMatcher} (failAt : Option Nat) (id : Nat) :
      Reachable m → (orders.CancelOrder m failAt id).2 = 200 →
      Reachable (orders.CancelOrder m failAt id).1

/-- The engine after the bid for 5 at 10 of `loneBid` has come to rest. -/
def restingBid : OrderMatcher := { loneBid with BuyOrders := [firstBid] }

/-- The resting bid as `GetOrderByID` reads it from the store. -/
def restingBidRef : Order :=
  { exOrder 1 "BUY" "LIMIT" 5 0 10 "PENDING" 1 with Stock := some nxtech }

/-- The engine after a bid for 5 at 10 and then an ask for 5 at 10 were
submitted to a newly created engine. -/
def bidThenAsk : OrderMatcher :=
  (orders.CreateOrder
    (orders.CreateOrder (exEngine []) none 1 (exRequest "BUY" "LIMIT" 5 10)).1
    none 2 (exRequest "SELL" "LIMIT" 5 10)).1

/-- The engine after a bid at 10 and then a bid at 11 were submitted to a newly
created engine. -/
def twoBids : OrderMatcher :=
  (orders.CreateOrder
    (orders.CreateOrder (exEngine []) none 1 (exRequest "BUY" "LIMIT" 5 10)).1
    none 2 (exRequest "BUY" "LIMIT" 5 11)).1

/-- The engine after an ask for 40 at 9 was submitted to a newly created
engine. -/
def askResting : OrderMatcher :=
  (orders.CreateOrder (exEngine []) none 1 (exRequest "SELL" "LIMIT" 40 9)).1

/-- The engine after a bid for 10 at 10 was then submitted and took 10 of the
ask. -/
def askPartlyFilled : OrderMatcher :=
  (orders.CreateOrder askResting none 2 (exRequest "BUY" "LIMIT" 10 10)).1

/-- The ask as `GetOrderByID` reads it before the bid arrives. -/
def staleAskRef : Order :=
  { exOrder 1 "SELL" "LIMIT" 40 0 9 "PENDING" 1 with Stock := some nxtech }

/-- An empty book with the row of an incoming bid of quantity 0 at 10. -/
def loneZeroBid : OrderMatcher := exEngine [exOrder 1 "BUY" "LIMIT" 0 0 10 "PENDING" 1]

/-- The incoming bid of quantity 0 at 10. -/
def zeroBid : Order := exOrder 1 "BUY" "LIMIT" 0 0 10 "PENDING" 0

/-- An empty book with the row of an incoming ask for 5 at price 0. -/
def loneZeroPriceAsk : OrderMatcher := exEngine [exOrder 1 "SELL" "LIMIT" 5 0 0 "PENDING" 1]

/-- The incoming ask for 5 at price 0. -/
def zeroPriceAsk : Order := exOrder 1 "SELL" "LIMIT" 5 0 0 "PENDING" 0

/-! ## General lemmas -/

theorem tick_none : tick none = some none := rfl

theorem matchLoop_success (ms : List Order) : ∀ (tx : Tx) (o : Order) (tx1 : Tx) (o1 : Order),
    matchLoop tx o ms = (tx1, o1, none) →
    tx1.trades = tx.trades ++ loopTrades o ms ∧
    tx1.orders = (loopWrites o ms).foldl updateRows tx.orders ∧
    o1 = loopOrder o ms := by
  induction ms with
  | nil =>
    intro tx o tx1 o1 h
    simp [matchLoop] at h
    obtain ⟨rfl, rfl⟩ := h
    simp [loopTrades, loopWrites, loopOrder]
  | cons r rest ih =>
    intro tx o tx1 o1 h
    unfold matchLoop at h
    by_cases hg : o.FilledQuantity ≥ o.Quantity
    · simp [hg] at h
      obtain ⟨rfl, rfl⟩ := h
      simp [loopTrades, loopWrites, loopOrder, hg]
    · simp only [hg, if_false] at h
      cases hi : insertTrade tx (newTrade o r) with
      | none => simp [hi] at h
      | some txa =>
        simp only [hi] at h
        cases hu : updateOrder txa (applyFill r (tradeQuantity o r)) with
        | none => simp [hu] at h
        | some txb =>
          simp only [hu] at h
          obtain ⟨h1, h2, h3⟩ := ih txb _ tx1 o1 h
          have ha : txa.trades = tx.trades ++ [newTrade o r] ∧ txa.orders = tx.orders := by
            unfold insertTrade at hi
            cases ht : tick tx.failAt with
            | none => simp [ht] at hi
            | some f => simp [ht] at hi; subst hi; simp
          have hb : txb.trades = txa.trades ∧
              txb.orders = updateRows txa.orders (applyFill r (tradeQuantity o r)) := by
            unfold updateOrder at hu
            cases ht : tick txa.failAt with
            | none => simp [ht] at hu
            | some f => simp [ht] at hu; subst hu; simp
          refine ⟨?_, ?_, ?_⟩
          · rw [h1, hb.1, ha.1]; simp [loopTrades, hg]
          · rw [h2, hb.2, ha.2]; simp [loopWrites, hg]
          · rw [h3]; simp [loopOrder, hg]

theorem finishOrder_success (m : OrderMatcher) (tx : Tx) (o : Order)
    (h : (finishOrder m tx o).err = none) :
    finishOrder m tx o = finishOrder m { tx with failAt := none } o := by
  unfold finishOrder at h ⊢
  unfold updateOrder Commit at h ⊢
  cases ht : tick tx.failAt with
  | none => simp [ht] at h
  | some f =>
    simp only [ht] at h ⊢
    cases ht2 : tick f with
    | none => simp [ht2] at h
    | some g => simp [ht2, tick]

theorem fetch_eq (tx0 : Tx) (order : Order) (tx : Tx) (ms : List Order)
    (h : (if order.Typ = OrderTypeBuy then getMatchingSellOrders tx0 order
          else getMatchingBuyOrders tx0 order) = some (tx, ms)) :
    tx.orders = tx0.orders ∧ tx.trades = tx0.trades ∧
    ms = (if order.Typ = OrderTypeBuy then sellRows tx0.orders order
          else buyRows tx0.orders order) := by
  by_cases hb : order.Typ = OrderTypeBuy
  · simp only [hb, if_true] at h ⊢
    unfold getMatchingSellOrders at h
    cases ht : tick tx0.failAt with
    | none => simp [ht] at h
    | some f => simp [ht] at h; obtain ⟨rfl, rfl⟩ := h; simp
  · simp only [hb, if_false] at h ⊢
    unfold getMatchingBuyOrders at h
    cases ht : tick tx0.failAt with
    | none => simp [ht] at h
    | some f => simp [ht] at h; obtain ⟨rfl, rfl⟩ := h; simp

theorem ProcessOrder_success (m : OrderMatcher) (failAt : Option Nat) (order : Order)
    (h : (ProcessOrder m failAt order).err = none) :
    ProcessOrder m failAt order = successOutcome m order := by
  unfold ProcessOrder at h ⊢
  cases hb : Begin m.db failAt with
  | none => simp [hb] at h
  | some tx0 =>
    simp only [hb] at h ⊢
    have hb0 : tx0.orders = m.db.orders ∧ tx0.trades = m.db.trades := by
      unfold Begin at hb
      cases ht : tick failAt with
      | none => simp [ht] at hb
      | some f => simp [ht] at hb; subst hb; simp
    cases hq : (if order.Typ = OrderTypeBuy then getMatchingSellOrders tx0 order
           else getMatchingBuyOrders tx0 order) with
    | none => simp [hq] at h
    | some p =>
      obtain ⟨tx, ms⟩ := p
      simp only [hq] at h ⊢
      obtain ⟨ho, htr, hms⟩ := fetch_eq tx0 order tx ms hq
      have hms2 : ms = matchingOrdersFor m.db order := by
        rw [hms, hb0.1]; rfl
      subst hms2
      unfold successOutcome
      by_cases hc : order.Category = OrderCategoryMarket ∧
          (matchingOrdersFor m.db order).length = 0
      · simp only [hc, and_self, if_true] at h ⊢
        unfold updateOrder at h ⊢
        cases ht : tick tx.failAt with
        | none => simp [ht] at h
        | some f =>
          simp only [ht] at h ⊢
          unfold Commit at h ⊢
          cases ht2 : tick f with
          | none => simp [ht2] at h
          | some g => simp [ht2, ho, hb0.1, htr, hb0.2]
      · simp only [hc, if_false] at h ⊢
        rcases hl : matchLoop tx order (matchingOrdersFor m.db order) with ⟨tx1, o1, e⟩
        cases e with
        | some e => simp [hl] at h
        | none =>
          simp only [hl] at h ⊢
          obtain ⟨h1, h2, h3⟩ := matchLoop_success _ tx order tx1 o1 hl
          rw [finishOrder_success m tx1 o1 h]
          subst h3
          have e : ({ tx1 with failAt := none } : Tx) =
              { orders := (loopWrites order (matchingOrdersFor m.db order)).foldl
                  updateRows m.db.orders
                trades := m.db.trades ++ loopTrades order (matchingOrdersFor m.db order)
                failAt := none } := by
            rw [h1, h2, ho, htr, hb0.1, hb0.2]
          rw [e]

theorem matchLoop_no_fault (ms : List Order) : ∀ (tx : Tx) (o : Order),
    tx.failAt = none →
    (matchLoop tx o ms).2.2 = none ∧ (matchLoop tx o ms).1.failAt = none := by
  induction ms with
  | nil => intro tx o h; simp [matchLoop, h]
  | cons r rest ih =>
    intro tx o h
    unfold matchLoop
    by_cases hg : o.FilledQuantity ≥ o.Quantity
    · simp [hg, h]
    · simp only [hg, if_false, insertTrade, updateOrder, h, tick]
      exact ih _ _ rfl

theorem finishOrder_no_fault (m : OrderMatcher) (tx : Tx) (o : Order)
    (h : tx.failAt = none) : (finishOrder m tx o).err = none := by
  simp [finishOrder, updateOrder, Commit, h, tick]

theorem afterFetch_no_fault (m : OrderMatcher) (order : Order) (tx : Tx) (ms : List Order)
    (h : tx.failAt = none) :
    (if order.Category = OrderCategoryMarket ∧ ms.length = 0 then
        match updateOrder tx { order with Status := OrderStatusCancelled } with
        | none => (⟨m, { order with Status := OrderStatusCancelled },
            some "failed to cancel market order"⟩ : Outcome)
        | some tx1 =>
          match Commit m.db tx1 with
          | none => ⟨m, { order with Status := OrderStatusCancelled },
              some "failed to commit transaction"⟩
          | some db => ⟨{ m with db := db }, { order with Status := OrderStatusCancelled }, none⟩
      else
        match matchLoop tx order ms with
        | (_, order1, some e) => ⟨m, order1, some e⟩
        | (tx1, order1, none) => finishOrder m tx1 order1).err = none := by
  split
  · simp [updateOrder, Commit, tick, h]
  · obtain ⟨h1, h2⟩ := matchLoop_no_fault ms tx order h
    rcases hm : matchLoop tx order ms with ⟨tx1, o1, e⟩
    rw [hm] at h1 h2
    simp only at h1 h2
    subst h1
    exact finishOrder_no_fault m tx1 o1 h2

theorem ProcessOrder_no_fault (m : OrderMatcher) (order : Order) :
    (ProcessOrder m none order).err = none := by
  unfold ProcessOrder
  simp only [Begin, tick, getMatchingSellOrders, getMatchingBuyOrders]
  by_cases hb : order.Typ = OrderTypeBuy
  · rw [if_pos hb]
    exact afterFetch_no_fault m order
      { orders := m.db.orders, trades := m.db.trades, failAt := none } _ rfl
  · rw [if_neg hb]
    exact afterFetch_no_fault m order
      { orders := m.db.orders, trades := m.db.trades, failAt := none } _ rfl

theorem finishOrder_db (m : OrderMatcher) (tx : Tx) (o : Order)
    (h : (finishOrder m tx o).err ≠ none) : (finishOrder m tx o).matcher.db = m.db := by
  unfold finishOrder at h ⊢
  cases hu : updateOrder tx
      (if o.Category = OrderCategoryMarket ∧ o.FilledQuantity < o.Quantity then
        { o with Status := OrderStatusCancelled } else o) with
  | none => simp only [hu]; split_ifs <;> rfl
  | some tx1 =>
    simp only [hu] at h ⊢
    cases hc : Commit m.db tx1 with
    | none => simp only [hc]; split_ifs <;> rfl
    | some db => simp [hc] at h

/-- A call that returns an error leaves the committed database as it was. -/
theorem ProcessOrder_error_db (m : OrderMatcher) (failAt : Option Nat) (order : Order)
    (h : (ProcessOrder m failAt order).err ≠ none) :
    (ProcessOrder m failAt order).matcher.db = m.db := by
  unfold ProcessOrder at h ⊢
  cases hb : Begin m.db failAt with
  | none => rfl
  | some tx0 =>
    simp only [hb] at h ⊢
    cases hq : (if order.Typ = OrderTypeBuy then getMatchingSellOrders tx0 order
           else getMatchingBuyOrders tx0 order) with
    | none => rfl
    | some p =>
      obtain ⟨tx, ms⟩ := p
      simp only [hq] at h ⊢
      by_cases hc : order.Category = OrderCategoryMarket ∧ ms.length = 0
      · rw [if_pos hc] at h ⊢
        cases hu : updateOrder tx { order with Status := OrderStatusCancelled } with
        | none => rfl
        | some tx1 =>
          simp only [hu] at h ⊢
          cases hcm : Commit m.db tx1 with
          | none => rfl
          | some db => simp [hcm] at h
      · rw [if_neg hc] at h ⊢
        rcases hl : matchLoop tx order ms with ⟨tx1, o1, e⟩
        cases e with
        | some e => rfl
        | none =>
          simp only [hl] at h ⊢
          exact finishOrder_db m tx1 o1 h

theorem emittedTrades_eq (m : OrderMatcher) (failAt : Option Nat) (order : Order) :
    emittedTrades m failAt order =
      if (ProcessOrder m failAt order).err = none then
        loopTrades order (matchingOrdersFor m.db order)
      else [] := by
  unfold emittedTrades
  by_cases h : (ProcessOrder m failAt order).err = none
  · rw [if_pos h, ProcessOrder_success m failAt order h]
    unfold successOutcome
    split
    · rename_i hc
      have : matchingOrdersFor m.db order = [] := List.length_eq_zero.mp hc.2
      simp [this, loopTrades]
    · simp [finishOrder, updateOrder, Commit, tick]
  · rw [if_neg h, ProcessOrder_error_db m failAt order h]
    simp

theorem uintSub_of_le {a b : Nat} (h : b ≤ a) (ha : a < uintSize) : uintSub a b = a - b := by
  unfold uintSub
  have : a + uintSize - b = (a - b) + uintSize := by omega
  rw [this, Nat.add_mod_right]
  exact Nat.mod_eq_of_lt (by omega)

theorem uintAdd_of_lt {a b : Nat} (h : a + b < uintSize) : uintAdd a b = a + b := by
  unfold uintAdd
  exact Nat.mod_eq_of_lt h

theorem min_eq (a b : Nat) : OrderMatching.min a b = Min.min a b := by
  unfold OrderMatching.min
  rw [Nat.min_def]
  split_ifs <;> omega

theorem tradeQuantity_eq (o r : Order) (ho : o.FilledQuantity ≤ o.Quantity)
    (hoq : o.Quantity < uintSize) (hr : r.FilledQuantity ≤ r.Quantity)
    (hrq : r.Quantity < uintSize) :
    tradeQuantity o r = Min.min (o.Quantity - o.FilledQuantity) (remaining r) := by
  unfold tradeQuantity remaining
  simp only [min_eq, uintSub_of_le ho hoq, uintSub_of_le hr hrq]

theorem applyFill_incoming (o r : Order) (ho : o.FilledQuantity ≤ o.Quantity)
    (hoq : o.Quantity < uintSize) (hr : r.FilledQuantity ≤ r.Quantity)
    (hrq : r.Quantity < uintSize) :
    (applyFill o (tradeQuantity o r)).FilledQuantity = o.FilledQuantity + tradeQuantity o r ∧
    (applyFill o (tradeQuantity o r)).FilledQuantity ≤ o.Quantity ∧
    (applyFill o (tradeQuantity o r)).Quantity = o.Quantity := by
  have hq := tradeQuantity_eq o r ho hoq hr hrq
  have hle : tradeQuantity o r ≤ o.Quantity - o.FilledQuantity := by
    rw [hq]; exact Nat.min_le_left _ _
  have hadd : uintAdd o.FilledQuantity (tradeQuantity o r) =
      o.FilledQuantity + tradeQuantity o r := uintAdd_of_lt (by omega)
  refine ⟨?_, ?_, rfl⟩
  · simp only [applyFill]; omega
  · simp only [applyFill]; omega

/-- The loop fills the incoming order by the sum of its trades, which is the
smaller of its remaining quantity and the total remaining of the book. -/
theorem loop_sum (ms : List Order) : ∀ (o : Order), o.FilledQuantity ≤ o.Quantity →
    o.Quantity < uintSize →
    (∀ r ∈ ms, r.FilledQuantity ≤ r.Quantity ∧ r.Quantity < uintSize) →
    (loopOrder o ms).FilledQuantity =
      o.FilledQuantity + ((loopTrades o ms).map fun t => t.Quantity).sum ∧
    ((loopTrades o ms).map fun t => t.Quantity).sum =
      Min.min (o.Quantity - o.FilledQuantity) ((ms.map remaining).sum) := by
  induction ms with
  | nil => intro o _ _ _; simp [loopOrder, loopTrades]
  | cons r rest ih =>
    intro o ho hoq hms
    have hr := hms r (List.mem_cons_self _ _)
    by_cases hg : o.FilledQuantity ≥ o.Quantity
    · have : o.Quantity - o.FilledQuantity = 0 := by omega
      simp [loopOrder, loopTrades, hg, this]
    · obtain ⟨h1, h2, h3⟩ := applyFill_incoming o r ho hoq hr.1 hr.2
      have hq := tradeQuantity_eq o r ho hoq hr.1 hr.2
      obtain ⟨i1, i2⟩ := ih (applyFill o (tradeQuantity o r)) (by omega) (by omega)
        (fun x hx => hms x (List.mem_cons_of_mem _ hx))
      simp only [loopOrder, loopTrades, hg, if_false, List.map_cons, List.sum_cons, newTrade]
      rw [i1, i2, h1, h3]
      simp only [Nat.min_def] at hq ⊢
      constructor
      · omega
      · split_ifs at hq ⊢ <;> omega

theorem min_le_left (a b : Nat) : OrderMatching.min a b ≤ a := by
  unfold OrderMatching.min; split_ifs <;> omega

theorem tradeQuantity_le (o r : Order) (hg : ¬ o.FilledQuantity ≥ o.Quantity)
    (hoq : o.Quantity < uintSize) :
    tradeQuantity o r =
      OrderMatching.min (o.Quantity - o.FilledQuantity) (uintSub r.Quantity r.FilledQuantity) ∧
    tradeQuantity o r ≤ o.Quantity - o.FilledQuantity ∧
    (applyFill o (tradeQuantity o r)).FilledQuantity = o.FilledQuantity + tradeQuantity o r := by
  have hs : uintSub o.Quantity o.FilledQuantity = o.Quantity - o.FilledQuantity :=
    uintSub_of_le (by omega) hoq
  have h1 : tradeQuantity o r =
      OrderMatching.min (o.Quantity - o.FilledQuantity) (uintSub r.Quantity r.FilledQuantity) := by
    simp only [tradeQuantity, hs]
  have h2 : tradeQuantity o r ≤ o.Quantity - o.FilledQuantity := by
    rw [h1]; exact min_le_left _ _
  refine ⟨h1, h2, ?_⟩
  simp only [applyFill]
  exact uintAdd_of_lt (by omega)

theorem loopTrades_nil_of_filled (o : Order) (ms : List Order)
    (h : o.FilledQuantity ≥ o.Quantity) : loopTrades o ms = [] := by
  cases ms <;> simp [loopTrades, h]

theorem loopWrites_length (ms : List Order) : ∀ o : Order,
    (loopWrites o ms).length = (loopTrades o ms).length := by
  induction ms with
  | nil => intro o; simp [loopWrites, loopTrades]
  | cons r rest ih =>
    intro o
    by_cases hg : o.FilledQuantity ≥ o.Quantity
    · simp [loopWrites, loopTrades, hg]
    · simp [loopWrites, loopTrades, hg, ih]

/-- What the loop does at its `i`-th iteration, in terms of the trades before it. -/
theorem loop_index (ms : List Order) : ∀ (o : Order) (i : Nat) (t : Trade),
    o.Quantity < uintSize →
    (loopTrades o ms)[i]? = some t →
    ∃ r w, ms[i]? = some r ∧ (loopWrites o ms)[i]? = some w ∧
      w.ID = r.ID ∧
      restingID o t = r.ID ∧
      t.Price = tradePrice o r ∧
      o.FilledQuantity + (((loopTrades o ms).take i).map fun x => x.Quantity).sum
        < o.Quantity ∧
      t.Quantity = OrderMatching.min
        (o.Quantity -
          (o.FilledQuantity + (((loopTrades o ms).take i).map fun x => x.Quantity).sum))
        (uintSub r.Quantity r.FilledQuantity) ∧
      w = applyFill r t.Quantity ∧
      (i + 1 < (loopTrades o ms).length → t.Quantity = uintSub r.Quantity r.FilledQuantity) := by
  induction ms with
  | nil => intro o i t _ h; simp [loopTrades] at h
  | cons r rest ih =>
    intro o i t hoq h
    by_cases hg : o.FilledQuantity ≥ o.Quantity
    · simp [loopTrades, hg] at h
    · obtain ⟨q1, q2, q3⟩ := tradeQuantity_le o r hg hoq
      cases i with
      | zero =>
        simp only [loopTrades, hg, if_false, List.getElem?_cons_zero, Option.some.injEq] at h
        subst h
        refine ⟨r, applyFill r (tradeQuantity o r), by simp, by simp [loopWrites, hg], rfl, ?_,
          rfl, ?_, ?_, rfl, ?_⟩
        · simp only [restingID, newTrade]; split_ifs <;> rfl
        · simp; omega
        · simp [newTrade, q1]
        · intro hlen
          simp only [loopTrades, hg, if_false, List.length_cons] at hlen
          have hne : loopTrades (applyFill o (tradeQuantity o r)) rest ≠ [] := by
            intro he; rw [he] at hlen; simp at hlen
          have hlt : ¬ (applyFill o (tradeQuantity o r)).FilledQuantity ≥
              (applyFill o (tradeQuantity o r)).Quantity := by
            intro hge; exact hne (loopTrades_nil_of_filled _ _ hge)
          rw [q3] at hlt
          have hq' : (applyFill o (tradeQuantity o r)).Quantity = o.Quantity := rfl
          rw [hq'] at hlt
          simp only [newTrade]
          rw [q1] at hlt ⊢
          unfold OrderMatching.min at hlt ⊢
          split_ifs at hlt ⊢ <;> omega
      | succ k =>
        simp only [loopTrades, hg, if_false, List.getElem?_cons_succ] at h
        obtain ⟨r', w, h1, h2, h3, h4, h5, h6, h7, h8, h9⟩ :=
          ih (applyFill o (tradeQuantity o r)) k t hoq h
        refine ⟨r', w, by simpa using h1, by simpa [loopWrites, hg] using h2, h3, ?_, ?_, ?_, ?_,
          h8, ?_⟩
        · simpa [restingID, applyFill] using h4
        · simpa [tradePrice, applyFill] using h5
        · rw [q3] at h6
          have hq' : (applyFill o (tradeQuantity o r)).Quantity = o.Quantity := rfl
          rw [hq'] at h6
          simp only [loopTrades, hg, if_false, List.take_succ_cons, List.map_cons, List.sum_cons,
            newTrade]
          omega
        · rw [q3] at h7
          have hq' : (applyFill o (tradeQuantity o r)).Quantity = o.Quantity := rfl
          rw [hq'] at h7
          simp only [loopTrades, hg, if_false, List.take_succ_cons, List.map_cons, List.sum_cons,
            newTrade]
          rw [h7]
          congr 1
          omega
        · intro hlen
          apply h9
          simp only [loopTrades, hg, if_false, List.length_cons] at hlen
          omega

theorem updateRows_eq_map (rows : List Order) (w : Order) :
    updateRows rows w = rows.map fun r => updateRow r w := rfl

theorem foldl_updateRows (ws : List Order) : ∀ rows : List Order,
    ws.foldl updateRows rows = rows.map fun r => ws.foldl updateRow r := by
  induction ws with
  | nil => intro rows; simp
  | cons w rest ih =>
    intro rows
    simp only [List.foldl_cons, ih, updateRows_eq_map, List.map_map]
    rfl

theorem updateRow_ID (r w : Order) : (updateRow r w).ID = r.ID := by
  unfold updateRow; split_ifs <;> rfl

theorem updateRow_Quantity (r w : Order) : (updateRow r w).Quantity = r.Quantity := by
  unfold updateRow; split_ifs <;> rfl

theorem foldl_updateRow_ID (ws : List Order) : ∀ r : Order,
    (ws.foldl updateRow r).ID = r.ID ∧ (ws.foldl updateRow r).Quantity = r.Quantity := by
  induction ws with
  | nil => intro r; simp
  | cons w rest ih =>
    intro r
    simp only [List.foldl_cons]
    rw [(ih _).1, (ih _).2, updateRow_ID, updateRow_Quantity]
    exact ⟨rfl, rfl⟩

theorem foldl_updateRow_not_mem (ws : List Order) : ∀ r : Order,
    (∀ w ∈ ws, w.ID ≠ r.ID) → ws.foldl updateRow r = r := by
  induction ws with
  | nil => intro r _; rfl
  | cons w rest ih =>
    intro r h
    have hw : r.ID ≠ w.ID := fun e => h w (List.mem_cons_self _ _) e.symm
    simp only [List.foldl_cons, updateRow, hw, if_false]
    exact ih r fun x hx => h x (List.mem_cons_of_mem _ hx)

theorem foldl_updateRow_mem (ws : List Order) : ∀ (r w : Order),
    (ws.map fun x => x.ID).Nodup → w ∈ ws → w.ID = r.ID →
    (ws.foldl updateRow r).FilledQuantity = w.FilledQuantity ∧
    (ws.foldl updateRow r).Status = w.Status := by
  induction ws with
  | nil => intro r w _ h; simp at h
  | cons x rest ih =>
    intro r w hnd hw hid
    simp only [List.map_cons, List.nodup_cons, List.mem_map, not_exists, not_and] at hnd
    simp only [List.foldl_cons]
    rcases List.mem_cons.mp hw with rfl | hw'
    · have hnot : ∀ y ∈ rest, y.ID ≠ (updateRow r w).ID := by
        intro y hy e
        rw [updateRow_ID] at e
        exact hnd.1 y hy (e.trans hid.symm)
      rw [foldl_updateRow_not_mem rest _ hnot]
      simp [updateRow, hid]
    · exact ih (updateRow r x) w hnd.2 hw' (by rw [updateRow_ID]; exact hid)

theorem scanOrder_ID (o : Order) : (scanOrder o).ID = o.ID := rfl

theorem sellRows_perm (rows : List Order) (o : Order) :
    (sellRows rows o).Perm ((rows.filter (sellEligible o)).map scanOrder) :=
  (List.perm_insertionSort _ _).map _

theorem buyRows_perm (rows : List Order) (o : Order) :
    (buyRows rows o).Perm ((rows.filter (buyEligible o)).map scanOrder) :=
  (List.perm_insertionSort _ _).map _

/-- Every fetched order is the scan of a stored row on the opposite side that is
PENDING or PARTIALLY_FILLED. -/
theorem mem_matchingOrdersFor (db : Store) (order r : Order)
    (h : r ∈ matchingOrdersFor db order) :
    ∃ row ∈ db.orders, r = scanOrder row ∧ row.Typ ≠ order.Typ ∧
      row.StockSymbol = order.StockSymbol ∧
      (row.Status = OrderStatusPending ∨ row.Status = OrderStatusPartiallyFilled) := by
  unfold matchingOrdersFor at h
  by_cases hb : order.Typ = OrderTypeBuy
  · rw [if_pos hb] at h
    have h' := (sellRows_perm db.orders order).mem_iff.mp h
    simp only [List.mem_map, List.mem_filter] at h'
    obtain ⟨row, ⟨hrow, he⟩, rfl⟩ := h'
    refine ⟨row, hrow, rfl, ?_, ?_, ?_⟩
    · simp only [sellEligible, Bool.and_eq_true, decide_eq_true_eq] at he
      rw [he.1.1.1, hb]; decide
    · simp only [sellEligible, Bool.and_eq_true, decide_eq_true_eq] at he
      exact he.1.1.2
    · simp only [sellEligible, Bool.and_eq_true, Bool.or_eq_true, decide_eq_true_eq] at he
      exact he.1.2
  · rw [if_neg hb] at h
    have h' := (buyRows_perm db.orders order).mem_iff.mp h
    simp only [List.mem_map, List.mem_filter] at h'
    obtain ⟨row, ⟨hrow, he⟩, rfl⟩ := h'
    refine ⟨row, hrow, rfl, ?_, ?_, ?_⟩
    · simp only [buyEligible, Bool.and_eq_true, decide_eq_true_eq] at he
      rw [he.1.1.1]; exact fun e => hb e.symm
    · simp only [buyEligible, Bool.and_eq_true, decide_eq_true_eq] at he
      exact he.1.1.2
    · simp only [buyEligible, Bool.and_eq_true, Bool.or_eq_true, decide_eq_true_eq] at he
      exact he.1.2

theorem matchingOrdersFor_nodup (db : Store) (order : Order)
    (h : (db.orders.map fun o => o.ID).Nodup) :
    ((matchingOrdersFor db order).map fun o => o.ID).Nodup := by
  have key : ∀ (p : Order → Bool),
      (((db.orders.filter p).map scanOrder).map fun o => o.ID).Nodup := by
    intro p
    rw [List.map_map]
    have : ((fun o : Order => o.ID) ∘ scanOrder) = fun o => o.ID := rfl
    rw [this]
    exact h.sublist ((List.filter_sublist _).map _)
  unfold matchingOrdersFor
  split
  · exact ((sellRows_perm db.orders order).map _).nodup_iff.mpr (key _)
  · exact ((buyRows_perm db.orders order).map _).nodup_iff.mpr (key _)

theorem matchingOrdersFor_ne (db : Store) (order : Order)
    (hown : ∀ row ∈ db.orders, row.ID = order.ID → row.Typ = order.Typ) :
    ∀ r ∈ matchingOrdersFor db order, r.ID ≠ order.ID := by
  intro r hr e
  obtain ⟨row, hrow, rfl, hty, _⟩ := mem_matchingOrdersFor db order r hr
  exact hty (hown row hrow e)

theorem sameStatic_refl (o : Order) : sameStatic o o :=
  ⟨rfl, rfl, rfl, rfl, rfl, rfl, rfl, rfl, rfl⟩

theorem loopOrder_static (ms : List Order) : ∀ o : Order, sameStatic (loopOrder o ms) o := by
  induction ms with
  | nil => intro o; exact sameStatic_refl o
  | cons r rest ih =>
    intro o
    by_cases hg : o.FilledQuantity ≥ o.Quantity
    · simp only [loopOrder, hg, if_true]; exact sameStatic_refl o
    · simp only [loopOrder, hg, if_false]
      exact ih (applyFill o (tradeQuantity o r))

/-- The components of a successful call. -/
theorem successOutcome_fields (m : OrderMatcher) (order : Order) :
    (successOutcome m order).matcher.db.trades =
      m.db.trades ++ loopTrades order (matchingOrdersFor m.db order) ∧
    (successOutcome m order).matcher.db.stocks = m.db.stocks ∧
    (successOutcome m order).matcher.db.orders =
      m.db.orders.map (fun row => updateRow
        ((loopWrites order (matchingOrdersFor m.db order)).foldl updateRow row)
        (successOutcome m order).order) ∧
    (successOutcome m order).order.FilledQuantity =
      (loopOrder order (matchingOrdersFor m.db order)).FilledQuantity ∧
    sameStatic (successOutcome m order).order order := by
  unfold successOutcome
  by_cases hc : order.Category = OrderCategoryMarket ∧
      (matchingOrdersFor m.db order).length = 0
  · rw [if_pos hc]
    have hnil : matchingOrdersFor m.db order = [] := List.length_eq_zero.mp hc.2
    simp [hnil, loopTrades, loopWrites, loopOrder, updateRows_eq_map, sameStatic]
  · rw [if_neg hc]
    have hst := loopOrder_static (matchingOrdersFor m.db order) order
    simp only [finishOrder, updateOrder, Commit, tick, foldl_updateRows, updateRows_eq_map,
      List.map_map]
    refine ⟨trivial, trivial, ?_, ?_, ?_⟩
    · rfl
    · split_ifs <;> rfl
    · split_ifs
      · exact hst
      · exact hst

theorem loopWrites_ids (ms : List Order) : ∀ o : Order,
    ((loopWrites o ms).map fun x => x.ID) =
      ((ms.map fun x => x.ID).take (loopTrades o ms).length) := by
  induction ms with
  | nil => intro o; simp [loopWrites, loopTrades]
  | cons r rest ih =>
    intro o
    by_cases hg : o.FilledQuantity ≥ o.Quantity
    · simp [loopWrites, loopTrades, hg]
    · simp only [loopWrites, loopTrades, hg, if_false, List.map_cons, List.length_cons,
        List.take_succ_cons, ih]
      rfl

theorem loopTrades_ids (ms : List Order) : ∀ o : Order,
    ((loopTrades o ms).map (restingID o)) =
      ((ms.map fun x => x.ID).take (loopTrades o ms).length) := by
  induction ms with
  | nil => intro o; simp [loopTrades]
  | cons r rest ih =>
    intro o
    by_cases hg : o.FilledQuantity ≥ o.Quantity
    · simp [loopTrades, hg]
    · have hres : restingID (applyFill o (tradeQuantity o r)) = restingID o := rfl
      have hhead : restingID o (newTrade o r) = r.ID := by
        simp only [restingID, newTrade]; split_ifs <;> rfl
      simp only [loopTrades, hg, if_false, List.map_cons, List.length_cons,
        List.take_succ_cons, ← ih, hres, hhead]

theorem loopWrites_nodup (ms : List Order) (o : Order)
    (h : (ms.map fun x => x.ID).Nodup) : ((loopWrites o ms).map fun x => x.ID).Nodup := by
  rw [loopWrites_ids]
  exact h.sublist (List.take_sublist _ _)

/-- The stored row of a resting order the loop wrote carries what the loop wrote. -/
theorem written_row (m : OrderMatcher) (order : Order)
    (hids : (m.db.orders.map fun o => o.ID).Nodup)
    (hown : ∀ row ∈ m.db.orders, row.ID = order.ID → row.Typ = order.Typ)
    (r w : Order) (hr : r ∈ matchingOrdersFor m.db order)
    (hw : w ∈ loopWrites order (matchingOrdersFor m.db order)) (hwid : w.ID = r.ID) :
    (∃ row ∈ (successOutcome m order).matcher.db.orders, row.ID = r.ID) ∧
    ∀ row ∈ (successOutcome m order).matcher.db.orders, row.ID = r.ID →
      row.FilledQuantity = w.FilledQuantity ∧ row.Status = w.Status ∧
      row.Quantity = r.Quantity := by
  obtain ⟨-, -, hrows, -, hst⟩ := successOutcome_fields m order
  have hne : r.ID ≠ order.ID := matchingOrdersFor_ne m.db order hown r hr
  obtain ⟨row0, hrow0, hscan, -⟩ := mem_matchingOrdersFor m.db order r hr
  have hnd := loopWrites_nodup (matchingOrdersFor m.db order) order
    (matchingOrdersFor_nodup m.db order hids)
  have hfin : (successOutcome m order).order.ID = order.ID := hst.1
  have key : ∀ row ∈ m.db.orders, row.ID = r.ID →
      updateRow ((loopWrites order (matchingOrdersFor m.db order)).foldl updateRow row)
        (successOutcome m order).order =
      (loopWrites order (matchingOrdersFor m.db order)).foldl updateRow row := by
    intro row _ hid
    have : ((loopWrites order (matchingOrdersFor m.db order)).foldl updateRow row).ID ≠
        (successOutcome m order).order.ID := by
      rw [(foldl_updateRow_ID _ _).1, hid, hfin]; exact hne
    simp only [updateRow, this, if_false]
  have huniq : ∀ row ∈ m.db.orders, row.ID = r.ID → row = row0 := by
    intro row hrow hid
    have hid0 : row0.ID = r.ID := by rw [hscan]; rfl
    exact List.inj_on_of_nodup_map hids hrow hrow0 (hid.trans hid0.symm)
  constructor
  · rw [hrows]
    refine ⟨_, List.mem_map_of_mem _ hrow0, ?_⟩
    rw [updateRow_ID, (foldl_updateRow_ID _ _).1, hscan]
    rfl
  · intro row' hrow' hid'
    rw [hrows] at hrow'
    obtain ⟨row, hrow, rfl⟩ := List.mem_map.mp hrow'
    rw [updateRow_ID, (foldl_updateRow_ID _ _).1] at hid'
    rw [key row hrow hid']
    obtain ⟨hf, hs⟩ := foldl_updateRow_mem _ row w hnd hw (hwid.trans hid'.symm)
    refine ⟨hf, hs, ?_⟩
    rw [(foldl_updateRow_ID _ _).2, huniq row hrow hid', hscan]
    rfl

theorem loopTrades_mem (ms : List Order) : ∀ (o : Order) (t : Trade),
    t ∈ loopTrades o ms →
    ∃ r ∈ ms, restingID o t = r.ID ∧ t.Price = tradePrice o r := by
  induction ms with
  | nil => intro o t h; simp [loopTrades] at h
  | cons r rest ih =>
    intro o t h
    by_cases hg : o.FilledQuantity ≥ o.Quantity
    · simp [loopTrades, hg] at h
    · simp only [loopTrades, hg, if_false, List.mem_cons] at h
      rcases h with rfl | h
      · refine ⟨r, List.mem_cons_self _ _, ?_, rfl⟩
        simp only [restingID, newTrade]; split_ifs <;> rfl
      · obtain ⟨r', hr', h1, h2⟩ := ih _ t h
        exact ⟨r', List.mem_cons_of_mem _ hr', h1, h2⟩

theorem matchLoop_stock (s : Option Stock) (ms : List Order) : ∀ (tx : Tx) (o : Order),
    matchLoop tx { o with Stock := s } ms =
      ((matchLoop tx o ms).1, { (matchLoop tx o ms).2.1 with Stock := s },
        (matchLoop tx o ms).2.2) := by
  induction ms with
  | nil => intro tx o; rfl
  | cons r rest ih =>
    intro tx o
    unfold matchLoop
    by_cases hg : o.FilledQuantity ≥ o.Quantity
    · simp [hg]
    · simp only [hg, if_false]
      have h1 : newTrade { o with Stock := s } r = newTrade o r := rfl
      have h2 : tradeQuantity { o with Stock := s } r = tradeQuantity o r := rfl
      rw [h1, h2]
      cases insertTrade tx (newTrade o r) with
      | none => rfl
      | some tx1 =>
        simp only
        cases updateOrder tx1 (applyFill r (tradeQuantity o r)) with
        | none => rfl
        | some tx2 => exact ih tx2 (applyFill o (tradeQuantity o r))

theorem updateOrder_stock (tx : Tx) (o : Order) (s : Option Stock) :
    updateOrder tx { o with Stock := s } = updateOrder tx o := rfl

theorem finishOrder_err_indep (m : OrderMatcher) (tx : Tx) (o o' : Order) :
    (finishOrder m tx o).err = (finishOrder m tx o').err := by
  unfold finishOrder updateOrder Commit
  cases tick tx.failAt with
  | none => rfl
  | some f =>
    simp only
    cases tick f with
    | none => rfl
    | some g => rfl

theorem ProcessOrder_stock_err (m : OrderMatcher) (failAt : Option Nat) (order : Order)
    (s : Option Stock) :
    (ProcessOrder m failAt { order with Stock := s }).err = (ProcessOrder m failAt order).err := by
  unfold ProcessOrder
  cases Begin m.db failAt with
  | none => rfl
  | some tx0 =>
    simp only
    have hq : (if order.Typ = OrderTypeBuy then
          getMatchingSellOrders tx0 { order with Stock := s }
        else getMatchingBuyOrders tx0 { order with Stock := s }) =
        (if order.Typ = OrderTypeBuy then getMatchingSellOrders tx0 order
        else getMatchingBuyOrders tx0 order) := rfl
    rw [hq]
    cases (if order.Typ = OrderTypeBuy then getMatchingSellOrders tx0 order
        else getMatchingBuyOrders tx0 order) with
    | none => rfl
    | some p =>
      obtain ⟨tx, ms⟩ := p
      simp only
      by_cases hc : order.Category = OrderCategoryMarket ∧ ms.length = 0
      · rw [if_pos hc, if_pos hc]
        have hu : updateOrder tx
            { ({ order with Stock := s } : Order) with Status := OrderStatusCancelled } =
            updateOrder tx { order with Status := OrderStatusCancelled } := rfl
        rw [hu]
        cases updateOrder tx { order with Status := OrderStatusCancelled } with
        | none => rfl
        | some tx1 => simp only; cases Commit m.db tx1 <;> rfl
      · rw [if_neg hc, if_neg hc, matchLoop_stock]
        rcases matchLoop tx order ms with ⟨tx1, o1, e⟩
        cases e with
        | some e => rfl
        | none => exact finishOrder_err_indep m tx1 _ _

theorem loopTrades_stock (s : Option Stock) (ms : List Order) : ∀ o : Order,
    loopTrades { o with Stock := s } ms = loopTrades o ms := by
  induction ms with
  | nil => intro o; rfl
  | cons r rest ih =>
    intro o
    by_cases hg : o.FilledQuantity ≥ o.Quantity
    · simp [loopTrades, hg]
    · simp only [loopTrades, hg, if_false]
      have h1 : newTrade { o with Stock := s } r = newTrade o r := rfl
      have h2 : tradeQuantity { o with Stock := s } r = tradeQuantity o r := rfl
      rw [h1, h2]
      exact congrArg _ (ih (applyFill o (tradeQuantity o r)))

theorem sellRows_sorted (rows : List Order) (o : Order) :
    (sellRows rows o).Pairwise askBefore := by
  unfold sellRows
  rw [List.pairwise_map]
  exact List.sorted_insertionSort askBefore _

theorem buyRows_sorted (rows : List Order) (o : Order) :
    (buyRows rows o).Pairwise bidBefore := by
  unfold buyRows
  rw [List.pairwise_map]
  exact List.sorted_insertionSort bidBefore _

theorem uintAdd_uintSub (q a : Nat) (hq : q < uintSize) (ha : a < uintSize) :
    uintAdd a (uintSub q a) = q := by
  unfold uintAdd uintSub uintSize at *
  omega

theorem index_lt_of_mem_take : ∀ (l : List Nat) (n j x : Nat),
    l.Nodup → l[j]? = some x → x ∈ l.take n → j < n := by
  intro l
  induction l with
  | nil => intro n j x _ h; simp at h
  | cons a l ih =>
    intro n j x hnd hj hx
    cases n with
    | zero => simp at hx
    | succ n =>
      cases j with
      | zero => omega
      | succ j =>
        simp only [List.getElem?_cons_succ] at hj
        simp only [List.take_succ_cons, List.mem_cons] at hx
        rw [List.nodup_cons] at hnd
        rcases hx with rfl | hx
        · exact absurd (List.getElem?_mem hj) hnd.1
        · have := ih n j x hnd.2 hj hx
          omega

theorem loopOrder_filled_of_short (ms : List Order) : ∀ o : Order,
    (loopTrades o ms).length < ms.length →
    (loopOrder o ms).Quantity ≤ (loopOrder o ms).FilledQuantity := by
  induction ms with
  | nil => intro o h; simp at h
  | cons r rest ih =>
    intro o h
    by_cases hg : o.FilledQuantity ≥ o.Quantity
    · simp [loopOrder, hg]
    · simp only [loopTrades, loopOrder, hg, if_false, List.length_cons] at h ⊢
      exact ih _ (by omega)

/-- The caller's order after a successful call. -/
theorem successOutcome_order (m : OrderMatcher) (order : Order) :
    (successOutcome m order).order =
      if order.Category = OrderCategoryMarket ∧
          ((matchingOrdersFor m.db order).length = 0 ∨
            (loopOrder order (matchingOrdersFor m.db order)).FilledQuantity < order.Quantity) then
        { loopOrder order (matchingOrdersFor m.db order) with Status := OrderStatusCancelled }
      else loopOrder order (matchingOrdersFor m.db order) := by
  have hst := loopOrder_static (matchingOrdersFor m.db order) order
  obtain ⟨-, -, hcat, -, hq, -⟩ := hst
  unfold successOutcome
  by_cases hc : order.Category = OrderCategoryMarket ∧
      (matchingOrdersFor m.db order).length = 0
  · have hnil : matchingOrdersFor m.db order = [] := List.length_eq_zero.mp hc.2
    simp [hc.1, hnil, loopOrder]
  · rw [if_neg hc]
    simp only [finishOrder, updateOrder, Commit, tick, hcat, hq]
    by_cases hm : order.Category = OrderCategoryMarket
    · have hlen : ¬ (matchingOrdersFor m.db order).length = 0 := fun h => hc ⟨hm, h⟩
      simp only [hm, hlen, true_and, false_or]
    · simp [hm]

/-- The in-memory lists after a successful call. -/
theorem successOutcome_lists (m : OrderMatcher) (order : Order) :
    (successOutcome m order).matcher.BuyOrders =
      (if order.Category ≠ OrderCategoryMarket ∧
          (loopOrder order (matchingOrdersFor m.db order)).FilledQuantity < order.Quantity ∧
          order.Typ = OrderTypeBuy then
        m.BuyOrders ++ [loopOrder order (matchingOrdersFor m.db order)]
      else m.BuyOrders) ∧
    (successOutcome m order).matcher.SellOrders =
      (if order.Category ≠ OrderCategoryMarket ∧
          (loopOrder order (matchingOrdersFor m.db order)).FilledQuantity < order.Quantity ∧
          order.Typ ≠ OrderTypeBuy then
        m.SellOrders ++ [loopOrder order (matchingOrdersFor m.db order)]
      else m.SellOrders) := by
  have hst := loopOrder_static (matchingOrdersFor m.db order) order
  obtain ⟨-, hty, hcat, -, hq, -⟩ := hst
  unfold successOutcome
  by_cases hc : order.Category = OrderCategoryMarket ∧
      (matchingOrdersFor m.db order).length = 0
  · simp [hc.1, hc.2]
  · rw [if_neg hc]
    simp only [finishOrder, updateOrder, Commit, tick, hcat, hq, hty]
    by_cases hm : order.Category = OrderCategoryMarket
    · simp only [hm, true_and, ne_eq, not_true_eq_false, false_and, if_false]
      split_ifs <;> exact ⟨rfl, rfl⟩
    · simp only [hm, false_and, if_false, ne_eq, not_false_eq_true, true_and]
      split_ifs <;> simp_all

/-- When every resting order has remaining quantity, the loop either leaves the
incoming order as it was or fills it further and sets its status from the new
filled quantity. -/
theorem loop_status (ms : List Order) : ∀ o : Order, o.Quantity < uintSize →
    (∀ r ∈ ms, r.FilledQuantity < r.Quantity ∧ r.Quantity < uintSize) →
    ((loopOrder o ms).FilledQuantity = o.FilledQuantity ∧
      (loopOrder o ms).Status = o.Status) ∨
    (o.FilledQuantity < (loopOrder o ms).FilledQuantity ∧
      (loopOrder o ms).Status =
        if (loopOrder o ms).FilledQuantity ≥ o.Quantity then OrderStatusMatched
        else OrderStatusPartiallyFilled) := by
  induction ms with
  | nil => intro o _ _; exact Or.inl ⟨rfl, rfl⟩
  | cons r rest ih =>
    intro o hoq hms
    by_cases hg : o.FilledQuantity ≥ o.Quantity
    · left; simp [loopOrder, hg]
    · simp only [loopOrder, hg, if_false]
      obtain ⟨q1, q2, q3⟩ := tradeQuantity_le o r hg hoq
      have hr := hms r (List.mem_cons_self _ _)
      have hrs := uintSub_of_le (Nat.le_of_lt hr.1) hr.2
      have hpos : 0 < tradeQuantity o r := by
        rw [q1, hrs]; unfold OrderMatching.min; split_ifs <;> omega
      have hq' : (applyFill o (tradeQuantity o r)).Quantity = o.Quantity := rfl
      have hs' : (applyFill o (tradeQuantity o r)).Status =
          if (applyFill o (tradeQuantity o r)).FilledQuantity ≥ o.Quantity then
            OrderStatusMatched else OrderStatusPartiallyFilled := rfl
      rcases ih (applyFill o (tradeQuantity o r)) hoq
          (fun x hx => hms x (List.mem_cons_of_mem _ hx)) with ⟨e1, e2⟩ | ⟨e1, e2⟩
      · right
        rw [e1, e2, hs', q3]
        exact ⟨by omega, rfl⟩
      · right
        rw [q3] at e1
        rw [hq'] at e2
        exact ⟨by omega, e2⟩

theorem CancelOrder_no_fault (m : OrderMatcher) (order : Order) :
    (CancelOrder m none order).err = none := by
  simp [CancelOrder, Begin, updateOrder, Commit, tick]

/-- The components of a successful `CancelOrder`. -/
theorem CancelOrder_success (m : OrderMatcher) (failAt : Option Nat) (order : Order)
    (h : (CancelOrder m failAt order).err = none) :
    (CancelOrder m failAt order).matcher.db =
      { m.db with orders :=
          updateRows m.db.orders { order with Status := OrderStatusCancelled } } ∧
    (CancelOrder m failAt order).matcher.BuyOrders =
      (if order.Typ = OrderTypeBuy then removeFirst order.ID m.BuyOrders else m.BuyOrders) ∧
    (CancelOrder m failAt order).matcher.SellOrders =
      (if order.Typ = OrderTypeBuy then m.SellOrders
       else removeFirst order.ID m.SellOrders) ∧
    (CancelOrder m failAt order).order = { order with Status := OrderStatusCancelled } := by
  unfold CancelOrder Begin updateOrder Commit at h ⊢
  cases h1 : tick failAt with
  | none => simp [h1] at h
  | some f1 =>
    simp only [h1] at h ⊢
    cases h2 : tick f1 with
    | none => simp [h2] at h
    | some f2 =>
      simp only [h2] at h ⊢
      cases h3 : tick f2 with
      | none => simp [h3] at h
      | some f3 =>
        simp only [h3]
        refine ⟨trivial, ?_, ?_, trivial⟩
        · split_ifs <;> rfl
        · split_ifs <;> rfl

theorem removeFirst_eq_filter (id : Nat) (l : List Order)
    (h : (l.countP fun e => decide (e.ID = id)) ≤ 1) :
    removeFirst id l = l.filter (fun e => decide (e.ID ≠ id)) := by
  induction l with
  | nil => rfl
  | cons o rest ih =>
    by_cases ho : o.ID = id
    · have hc : (rest.countP fun e => decide (e.ID = id)) = 0 := by
        rw [List.countP_cons_of_pos _ _ (by simpa using ho)] at h
        omega
      have hall : ∀ e ∈ rest, decide (e.ID ≠ id) = true := by
        intro e he
        have := (List.countP_eq_zero.mp hc) e he
        simpa using this
      simp only [removeFirst, ho, if_true, ne_eq, not_true_eq_false, decide_False,
        Bool.false_eq_true, not_false_eq_true, List.filter_cons_of_neg]
      exact (List.filter_eq_self.mpr hall).symm
    · have hc : (rest.countP fun e => decide (e.ID = id)) ≤ 1 := by
        rw [List.countP_cons_of_neg _ _ (by simpa using ho)] at h
        exact h
      simp only [removeFirst, ho, if_false]
      rw [List.filter_cons_of_pos (by simpa using ho), ih hc]

/-! ## C1 -/

/-- C1. In a successful `ProcessOrder` on a store with unique order ids, with
`FilledQuantity ≤ Quantity` for the incoming order and every eligible resting
order: the `i`-th trade is against the `i`-th eligible resting order `r`, it is
emitted while the incoming order still has remaining quantity, its quantity is
the minimum of the incoming order's remaining quantity at that moment (its
quantity less what it had filled on entry and in the earlier trades) and
`r.Quantity - r.FilledQuantity`, and the stored row of `r` ends with
`FilledQuantity` larger by exactly that quantity; the incoming order's
`FilledQuantity` grows by exactly the sum of the trade quantities. -/
theorem C1_trade_quantity_and_fills (m : OrderMatcher) (failAt : Option Nat) (order : Order)
    (hok : (ProcessOrder m failAt order).err = none)
    (hids : (m.db.orders.map fun o => o.ID).Nodup)
    (hown : ∀ row ∈ m.db.orders, row.ID = order.ID → row.Typ = order.Typ)
    (ho : order.FilledQuantity ≤ order.Quantity) (hoq : order.Quantity < uintSize)
    (hms : ∀ r ∈ matchingOrdersFor m.db order,
      r.FilledQuantity ≤ r.Quantity ∧ r.Quantity < uintSize) :
    (ProcessOrder m failAt order).order.FilledQuantity =
      order.FilledQuantity + ((emittedTrades m failAt order).map fun t => t.Quantity).sum ∧
    ∀ (i : Nat) (t : Trade), (emittedTrades m failAt order)[i]? = some t →
      ∃ r, (matchingOrdersFor m.db order)[i]? = some r ∧ restingID order t = r.ID ∧
        order.FilledQuantity +
          (((emittedTrades m failAt order).take i).map fun x => x.Quantity).sum
            < order.Quantity ∧
        t.Quantity = Min.min
          (order.Quantity - (order.FilledQuantity +
            (((emittedTrades m failAt order).take i).map fun x => x.Quantity).sum))
          (r.Quantity - r.FilledQuantity) ∧
        (∃ row ∈ (ProcessOrder m failAt order).matcher.db.orders, row.ID = r.ID) ∧
        ∀ row ∈ (ProcessOrder m failAt order).matcher.db.orders, row.ID = r.ID →
          row.FilledQuantity = r.FilledQuantity + t.Quantity := by
  have hem : emittedTrades m failAt order =
      loopTrades order (matchingOrdersFor m.db order) := by
    rw [emittedTrades_eq, if_pos hok]
  rw [hem, ProcessOrder_success m failAt order hok]
  obtain ⟨-, -, -, hfill, -⟩ := successOutcome_fields m order
  constructor
  · rw [hfill]
    exact (loop_sum _ order ho hoq hms).1
  · intro i t ht
    obtain ⟨r, w, h1, h2, h3, h4, -, h6, h7, h8, -⟩ :=
      loop_index (matchingOrdersFor m.db order) order i t hoq ht
    have hr : r ∈ matchingOrdersFor m.db order := List.getElem?_mem h1
    have hw : w ∈ loopWrites order (matchingOrdersFor m.db order) := List.getElem?_mem h2
    obtain ⟨hex, hall⟩ := written_row m order hids hown r w hr hw h3
    have hrs := uintSub_of_le (hms r hr).1 (hms r hr).2
    rw [hrs, min_eq] at h7
    refine ⟨r, h1, h4, h6, h7, hex, ?_⟩
    intro row hrow hid
    rw [(hall row hrow hid).1, h8]
    simp only [applyFill]
    apply uintAdd_of_lt
    have : t.Quantity ≤ r.Quantity - r.FilledQuantity := by
      rw [h7]; exact Nat.min_le_right _ _
    have := (hms r hr).1
    have := (hms r hr).2
    omega

/-- Witness of C1: the bid for 50 against the asks for 30 and 40, second trade. -/
theorem C1_witness :
    (ProcessOrder twoAsks none bid50).err = none ∧
    (ProcessOrder twoAsks none bid50).order.FilledQuantity =
      bid50.FilledQuantity + ((emittedTrades twoAsks none bid50).map fun t => t.Quantity).sum ∧
    ∃ r, (matchingOrdersFor twoAsks.db bid50)[1]? = some r ∧
      restingID bid50 ⟨3, 2, "NXTECH", 20, 9⟩ = r.ID ∧
      bid50.FilledQuantity +
          (((emittedTrades twoAsks none bid50).take 1).map fun x => x.Quantity).sum
            < bid50.Quantity ∧
      (⟨3, 2, "NXTECH", 20, 9⟩ : Trade).Quantity = Min.min
          (bid50.Quantity - (bid50.FilledQuantity +
            (((emittedTrades twoAsks none bid50).take 1).map fun x => x.Quantity).sum))
          (r.Quantity - r.FilledQuantity) ∧
      (∃ row ∈ (ProcessOrder twoAsks none bid50).matcher.db.orders, row.ID = r.ID) ∧
      ∀ row ∈ (ProcessOrder twoAsks none bid50).matcher.db.orders, row.ID = r.ID →
        row.FilledQuantity = r.FilledQuantity + (⟨3, 2, "NXTECH", 20, 9⟩ : Trade).Quantity :=
  ⟨by decide,
   (C1_trade_quantity_and_fills twoAsks none bid50 (by decide) (by decide) (by decide)
      (by decide) (by decide) (by decide)).1,
   (C1_trade_quantity_and_fills twoAsks none bid50 (by decide) (by decide) (by decide)
      (by decide) (by decide) (by decide)).2 1 ⟨3, 2, "NXTECH", 20, 9⟩ (by decide)⟩

/-! ## C2 -/

/-- C2. Every trade `ProcessOrder` emits is against an eligible resting order
`r` and is priced at `r.Price` when both orders are LIMIT, at `r.Price` when
the incoming order is MARKET and `r` is LIMIT, at the incoming order's `Price`
when the incoming order is LIMIT and `r` is MARKET; in every case the price is
the `Price` field of one of the two orders. The fetched orders carry no
`Stock`, and the trades do not change with the `Stock` of the incoming order,
so no `CurrentPrice` enters a trade price. -/
theorem C2_trade_price (m : OrderMatcher) (failAt : Option Nat) (order : Order) :
    (∀ t ∈ emittedTrades m failAt order, ∃ r ∈ matchingOrdersFor m.db order,
      restingID order t = r.ID ∧
      (order.Category = OrderCategoryLimit → r.Category = OrderCategoryLimit →
        t.Price = r.Price) ∧
      (order.Category = OrderCategoryMarket → r.Category = OrderCategoryLimit →
        t.Price = r.Price) ∧
      (order.Category = OrderCategoryLimit → r.Category = OrderCategoryMarket →
        t.Price = order.Price) ∧
      (t.Price = r.Price ∨ t.Price = order.Price)) ∧
    (∀ r ∈ matchingOrdersFor m.db order, r.Stock = none) ∧
    (∀ s : Option Stock,
      emittedTrades m failAt { order with Stock := s } = emittedTrades m failAt order) := by
  refine ⟨?_, ?_, ?_⟩
  · intro t ht
    rw [emittedTrades_eq] at ht
    by_cases hok : (ProcessOrder m failAt order).err = none
    · rw [if_pos hok] at ht
      obtain ⟨r, hr, h1, h2⟩ := loopTrades_mem _ order t ht
      refine ⟨r, hr, h1, ?_, ?_, ?_, ?_⟩
      · intro ho hr'
        rw [h2]; simp [tradePrice, ho, hr']
      · intro ho hr'
        have : order.Category ≠ OrderCategoryLimit := by rw [ho]; decide
        rw [h2]; simp [tradePrice, this]
      · intro ho hr'
        have : r.Category ≠ OrderCategoryLimit := by rw [hr']; decide
        rw [h2]; simp [tradePrice, ho, this]
      · rw [h2]; unfold tradePrice
        split_ifs
        · exact Or.inl rfl
        · exact Or.inr rfl
        · exact Or.inl rfl
    · rw [if_neg hok] at ht
      simp at ht
  · intro r hr
    obtain ⟨row, -, rfl, -⟩ := mem_matchingOrdersFor m.db order r hr
    rfl
  · intro s
    rw [emittedTrades_eq, emittedTrades_eq, ProcessOrder_stock_err]
    have hms : matchingOrdersFor m.db { order with Stock := s } =
        matchingOrdersFor m.db order := rfl
    rw [hms, loopTrades_stock]

/-! ## C3 -/

/-- C3. In a successful `ProcessOrder` on a store with unique order ids: the
eligible sequence is in price-time order (asks by price ascending then creation
time ascending for a BUY, bids by price descending then creation time ascending
otherwise); the trades are emitted against its orders in that order; if `A` is
before `B` in it and `B` receives a trade, every stored row of `A` ends with
`FilledQuantity = Quantity` and status MATCHED; every trade is emitted while
the incoming order still has remaining quantity; the loop stops before the end
of the sequence only when the incoming order is filled; and a stored row that
is neither the incoming order nor the counterparty of a trade is left as it
was. -/
theorem C3_price_time_priority (m : OrderMatcher) (failAt : Option Nat) (order : Order)
    (hok : (ProcessOrder m failAt order).err = none)
    (hids : (m.db.orders.map fun o => o.ID).Nodup)
    (hown : ∀ row ∈ m.db.orders, row.ID = order.ID → row.Typ = order.Typ)
    (hoq : order.Quantity < uintSize)
    (hms : ∀ r ∈ matchingOrdersFor m.db order,
      r.Quantity < uintSize ∧ r.FilledQuantity < uintSize) :
    (order.Typ = OrderTypeBuy → (matchingOrdersFor m.db order).Pairwise askBefore) ∧
    (order.Typ ≠ OrderTypeBuy → (matchingOrdersFor m.db order).Pairwise bidBefore) ∧
    (emittedTrades m failAt order).map (restingID order) =
      ((matchingOrdersFor m.db order).take (emittedTrades m failAt order).length).map
        (fun r => r.ID) ∧
    (∀ (i j : Nat) (A B : Order), i < j →
      (matchingOrdersFor m.db order)[i]? = some A →
      (matchingOrdersFor m.db order)[j]? = some B →
      (∃ t ∈ emittedTrades m failAt order, restingID order t = B.ID) →
      (∃ row ∈ (ProcessOrder m failAt order).matcher.db.orders, row.ID = A.ID) ∧
      ∀ row ∈ (ProcessOrder m failAt order).matcher.db.orders, row.ID = A.ID →
        row.FilledQuantity = row.Quantity ∧ row.Status = OrderStatusMatched) ∧
    (∀ (i : Nat) (t : Trade), (emittedTrades m failAt order)[i]? = some t →
      order.FilledQuantity +
        (((emittedTrades m failAt order).take i).map fun x => x.Quantity).sum
          < order.Quantity) ∧
    ((emittedTrades m failAt order).length < (matchingOrdersFor m.db order).length →
      order.Quantity ≤ (ProcessOrder m failAt order).order.FilledQuantity) ∧
    (∀ row ∈ m.db.orders, row.ID ≠ order.ID →
      (∀ t ∈ emittedTrades m failAt order, restingID order t ≠ row.ID) →
      row ∈ (ProcessOrder m failAt order).matcher.db.orders) := by
  have hem : emittedTrades m failAt order =
      loopTrades order (matchingOrdersFor m.db order) := by
    rw [emittedTrades_eq, if_pos hok]
  rw [hem, ProcessOrder_success m failAt order hok]
  obtain ⟨-, -, hrows, hfill, hst⟩ := successOutcome_fields m order
  have hnd := matchingOrdersFor_nodup m.db order hids
  have hidsT := loopTrades_ids (matchingOrdersFor m.db order) order
  refine ⟨?_, ?_, ?_, ?_, ?_, ?_, ?_⟩
  · intro hb
    unfold matchingOrdersFor
    rw [if_pos hb]
    exact sellRows_sorted _ _
  · intro hb
    unfold matchingOrdersFor
    rw [if_neg hb]
    exact buyRows_sorted _ _
  · rw [hidsT, List.map_take]
  · intro i j A B hij hA hB ⟨t, ht, htB⟩
    have hBid : B.ID ∈ ((matchingOrdersFor m.db order).map fun x => x.ID).take
        (loopTrades order (matchingOrdersFor m.db order)).length := by
      rw [← hidsT, ← htB]
      exact List.mem_map_of_mem _ ht
    have hBj : ((matchingOrdersFor m.db order).map fun x => x.ID)[j]? = some B.ID := by
      rw [List.getElem?_map, hB]; rfl
    have hj := index_lt_of_mem_take _ _ j B.ID hnd hBj hBid
    have hi : i < (loopTrades order (matchingOrdersFor m.db order)).length := by omega
    obtain ⟨ti, hti⟩ : ∃ ti, (loopTrades order (matchingOrdersFor m.db order))[i]? = some ti :=
      ⟨_, List.getElem?_eq_getElem hi⟩
    obtain ⟨r, w, h1, h2, h3, -, -, -, -, h8, h9⟩ :=
      loop_index (matchingOrdersFor m.db order) order i ti hoq hti
    rw [hA] at h1
    obtain rfl : A = r := Option.some.inj h1
    have hAm : A ∈ matchingOrdersFor m.db order := List.getElem?_mem hA
    have hw : w ∈ loopWrites order (matchingOrdersFor m.db order) := List.getElem?_mem h2
    obtain ⟨hex, hall⟩ := written_row m order hids hown A w hAm hw h3
    refine ⟨hex, ?_⟩
    intro row hrow hid
    obtain ⟨e1, e2, e3⟩ := hall row hrow hid
    have hq := h9 (by omega)
    have hwf : w.FilledQuantity = A.Quantity := by
      rw [h8, hq]
      exact uintAdd_uintSub _ _ (hms A hAm).1 (hms A hAm).2
    have hws : w.Status = OrderStatusMatched := by
      rw [h8, hq]
      simp only [applyFill]
      rw [uintAdd_uintSub _ _ (hms A hAm).1 (hms A hAm).2]
      simp
    rw [e1, e2, e3, hwf, hws]
    exact ⟨rfl, rfl⟩
  · intro i t ht
    obtain ⟨r, w, -, -, -, -, -, h6, -⟩ :=
      loop_index (matchingOrdersFor m.db order) order i t hoq ht
    exact h6
  · intro hlen
    rw [hfill]
    have := loopOrder_filled_of_short _ order hlen
    rw [(loopOrder_static _ order).2.2.2.2.1] at this
    exact this
  · intro row hrow hne hnot
    rw [hrows]
    refine List.mem_map.mpr ⟨row, hrow, ?_⟩
    have hw : ∀ w ∈ loopWrites order (matchingOrdersFor m.db order), w.ID ≠ row.ID := by
      intro w hw e
      have hwid : w.ID ∈ (loopWrites order (matchingOrdersFor m.db order)).map fun x => x.ID :=
        List.mem_map_of_mem _ hw
      rw [loopWrites_ids, ← hidsT] at hwid
      obtain ⟨t, ht, hte⟩ := List.mem_map.mp hwid
      exact hnot t ht (hte.trans e)
    rw [foldl_updateRow_not_mem _ row hw]
    have : row.ID ≠ (successOutcome m order).order.ID := by rw [hst.1]; exact hne
    simp only [updateRow, this, if_false]

/-- Witness of C3: the bid for 50 trades with ask 1 then ask 2, and ask 1 ends
MATCHED. -/
theorem C3_witness :
    (ProcessOrder twoAsks none bid50).err = none ∧
    (matchingOrdersFor twoAsks.db bid50).map (fun r => r.ID) = [1, 2] ∧
    (emittedTrades twoAsks none bid50).map (restingID bid50) = [1, 2] ∧
    ((∃ row ∈ (ProcessOrder twoAsks none bid50).matcher.db.orders, row.ID = 1) ∧
      ∀ row ∈ (ProcessOrder twoAsks none bid50).matcher.db.orders, row.ID = 1 →
        row.FilledQuantity = row.Quantity ∧ row.Status = OrderStatusMatched) :=
  ⟨by decide, by decide, by decide,
   (C3_price_time_priority twoAsks none bid50 (by decide) (by decide) (by decide) (by decide)
      (by decide)).2.2.2.1 0 1
      (exOrder 1 "SELL" "LIMIT" 30 0 9 "PENDING" 1) (exOrder 2 "SELL" "LIMIT" 40 0 9 "PENDING" 2)
      (by decide) (by decide) (by decide) ⟨⟨3, 2, "NXTECH", 20, 9⟩, by decide, by decide⟩⟩

/-! ## C4 -/

/-- C4. In a successful `ProcessOrder` with `FilledQuantity ≤ Quantity` for the
incoming order and for every eligible resting order, the trade quantities sum
to the increase of the incoming order's `FilledQuantity`, which is the smaller
of its remaining quantity on entry and the total remaining quantity of the
eligible resting orders; so the filled quantity never exceeds the quantity. -/
theorem C4_trade_quantities_sum (m : OrderMatcher) (failAt : Option Nat) (order : Order)
    (hok : (ProcessOrder m failAt order).err = none)
    (ho : order.FilledQuantity ≤ order.Quantity) (hoq : order.Quantity < uintSize)
    (hms : ∀ r ∈ matchingOrdersFor m.db order,
      r.FilledQuantity ≤ r.Quantity ∧ r.Quantity < uintSize) :
    (ProcessOrder m failAt order).order.FilledQuantity =
      order.FilledQuantity + ((emittedTrades m failAt order).map fun t => t.Quantity).sum ∧
    ((emittedTrades m failAt order).map fun t => t.Quantity).sum =
      Min.min (order.Quantity - order.FilledQuantity)
        (((matchingOrdersFor m.db order).map fun r => r.Quantity - r.FilledQuantity).sum) ∧
    order.FilledQuantity + ((emittedTrades m failAt order).map fun t => t.Quantity).sum
      ≤ order.Quantity := by
  have hem : emittedTrades m failAt order =
      loopTrades order (matchingOrdersFor m.db order) := by
    rw [emittedTrades_eq, if_pos hok]
  rw [hem, ProcessOrder_success m failAt order hok]
  obtain ⟨-, -, -, hfill, -⟩ := successOutcome_fields m order
  obtain ⟨h1, h2⟩ := loop_sum _ order ho hoq hms
  refine ⟨by rw [hfill]; exact h1, h2, ?_⟩
  rw [h2]
  have := Nat.min_le_left (order.Quantity - order.FilledQuantity)
    (((matchingOrdersFor m.db order).map remaining).sum)
  omega

/-- Witness of C4: the bid for 50 against 70 on offer is filled by 50. -/
theorem C4_witness :
    (ProcessOrder twoAsks none bid50).err = none ∧
    (ProcessOrder twoAsks none bid50).order.FilledQuantity = 50 ∧
    ((emittedTrades twoAsks none bid50).map fun t => t.Quantity).sum = 50 ∧
    (((matchingOrdersFor twoAsks.db bid50).map fun r => r.Quantity - r.FilledQuantity).sum) = 70 ∧
    (ProcessOrder twoAsks none bid50).order.FilledQuantity =
      bid50.FilledQuantity + ((emittedTrades twoAsks none bid50).map fun t => t.Quantity).sum ∧
    ((emittedTrades twoAsks none bid50).map fun t => t.Quantity).sum =
      Min.min (bid50.Quantity - bid50.FilledQuantity)
        (((matchingOrdersFor twoAsks.db bid50).map fun r => r.Quantity - r.FilledQuantity).sum) ∧
    bid50.FilledQuantity + ((emittedTrades twoAsks none bid50).map fun t => t.Quantity).sum
      ≤ bid50.Quantity :=
  ⟨by decide, by decide, by decide, by decide,
   C4_trade_quantities_sum twoAsks none bid50 (by decide) (by decide) (by decide) (by decide)⟩

/-! ## C5 -/

theorem UpdateOrderStatus_status (o : Order) :
    (UpdateOrderStatus o).Status =
      if o.FilledQuantity = 0 then OrderStatusPending
      else if o.FilledQuantity < o.Quantity then OrderStatusPartiallyFilled
      else OrderStatusMatched := by
  unfold UpdateOrderStatus
  split_ifs <;> rfl

/-- When every eligible resting order has remaining quantity, a successful
`ProcessOrder` keeps `FilledQuantity ≤ Quantity` and the status that
`UpdateOrderStatus` derives, for the incoming order (unless CANCELLED) and for
the stored row of every resting order it traded with. -/
theorem invariant_preserved_of_remaining (m : OrderMatcher) (failAt : Option Nat)
    (order : Order) (hok : (ProcessOrder m failAt order).err = none)
    (hids : (m.db.orders.map fun o => o.ID).Nodup)
    (hown : ∀ row ∈ m.db.orders, row.ID = order.ID → row.Typ = order.Typ)
    (ho : order.FilledQuantity ≤ order.Quantity) (hoq : order.Quantity < uintSize)
    (hos : order.Status = OrderStatusCancelled ∨
      (UpdateOrderStatus order).Status = order.Status)
    (hms : ∀ r ∈ matchingOrdersFor m.db order,
      r.FilledQuantity < r.Quantity ∧ r.Quantity < uintSize) :
    (ProcessOrder m failAt order).order.FilledQuantity ≤
      (ProcessOrder m failAt order).order.Quantity ∧
    ((ProcessOrder m failAt order).order.Status = OrderStatusCancelled ∨
      (UpdateOrderStatus (ProcessOrder m failAt order).order).Status =
        (ProcessOrder m failAt order).order.Status) ∧
    ∀ t ∈ emittedTrades m failAt order,
      ∀ row ∈ (ProcessOrder m failAt order).matcher.db.orders, row.ID = restingID order t →
        0 < row.FilledQuantity ∧ row.FilledQuantity ≤ row.Quantity ∧
        (UpdateOrderStatus row).Status = row.Status := by
  have hem : emittedTrades m failAt order =
      loopTrades order (matchingOrdersFor m.db order) := by
    rw [emittedTrades_eq, if_pos hok]
  rw [hem, ProcessOrder_success m failAt order hok]
  obtain ⟨-, -, -, hfill, hst⟩ := successOutcome_fields m order
  have hms' : ∀ r ∈ matchingOrdersFor m.db order,
      r.FilledQuantity ≤ r.Quantity ∧ r.Quantity < uintSize :=
    fun r hr => ⟨Nat.le_of_lt (hms r hr).1, (hms r hr).2⟩
  obtain ⟨s1, s2⟩ := loop_sum _ order ho hoq hms'
  have hq : (loopOrder order (matchingOrdersFor m.db order)).Quantity = order.Quantity :=
    (loopOrder_static _ order).2.2.2.2.1
  have hle : (loopOrder order (matchingOrdersFor m.db order)).FilledQuantity ≤
      order.Quantity := by
    rw [s1, s2]
    have := Nat.min_le_left (order.Quantity - order.FilledQuantity)
      (((matchingOrdersFor m.db order).map remaining).sum)
    omega
  refine ⟨?_, ?_, ?_⟩
  · rw [hfill, hst.2.2.2.2.1]; exact hle
  · rw [successOutcome_order]
    split_ifs with hc
    · exact Or.inl rfl
    · rcases loop_status (matchingOrdersFor m.db order) order hoq hms with ⟨e1, e2⟩ | ⟨e1, e2⟩
      · rcases hos with h | h
        · left; rw [e2, h]
        · right
          rw [UpdateOrderStatus_status] at h ⊢
          rw [e1, e2, hq]; exact h
      · right
        rw [UpdateOrderStatus_status, e2, hq]
        have : (loopOrder order (matchingOrdersFor m.db order)).FilledQuantity ≠ 0 := by omega
        simp only [this, if_false]
        split_ifs <;> first | rfl | omega
  · intro t ht row hrow hid
    obtain ⟨i, hi⟩ := List.getElem?_of_mem ht
    obtain ⟨r, w, h1, h2, h3, h4, -, h6, h7, h8, -⟩ :=
      loop_index (matchingOrdersFor m.db order) order i t hoq hi
    have hr : r ∈ matchingOrdersFor m.db order := List.getElem?_mem h1
    have hw : w ∈ loopWrites order (matchingOrdersFor m.db order) := List.getElem?_mem h2
    obtain ⟨-, hall⟩ := written_row m order hids hown r w hr hw h3
    obtain ⟨e1, e2, e3⟩ := hall row hrow (hid.trans h4)
    obtain ⟨r1, r2⟩ := hms r hr
    rw [uintSub_of_le (Nat.le_of_lt r1) r2] at h7
    have htq : 0 < t.Quantity ∧ t.Quantity ≤ r.Quantity - r.FilledQuantity := by
      rw [h7]; unfold OrderMatching.min; split_ifs <;> omega
    have hwf : w.FilledQuantity = r.FilledQuantity + t.Quantity := by
      rw [h8]; simp only [applyFill]; exact uintAdd_of_lt (by omega)
    have hws : w.Status = if w.FilledQuantity ≥ r.Quantity then OrderStatusMatched
        else OrderStatusPartiallyFilled := by
      rw [h8]; rfl
    rw [UpdateOrderStatus_status, e1, e2, e3, hws]
    have hne : w.FilledQuantity ≠ 0 := by omega
    refine ⟨by omega, by omega, ?_⟩
    simp only [hne, if_false]
    split_ifs <;> first | rfl | omega

/-- C5 (code at the failing input). The submission path accepts an ask of
quantity 0 and leaves it PENDING in the store, where it satisfies the order
invariant. A bid for 5 that then matches it succeeds with a fill of 0: the
stored ask becomes MATCHED and the bid PARTIALLY_FILLED, both with
`FilledQuantity` 0, where `UpdateOrderStatus` derives PENDING. -/
theorem C5_status_not_rederived :
    orders.CreateOrder (exEngine []) none 1 (exRequest "SELL" "LIMIT" 0 10) =
      (exEngine [exOrder 1 "SELL" "LIMIT" 0 0 10 "PENDING" 1], 200) ∧
    models.CreateOrder (exEngine [exOrder 1 "SELL" "LIMIT" 0 0 10 "PENDING" 1]).db 2
      (orderOfRequest (exRequest "BUY" "LIMIT" 5 10)) = (zeroAskBook.db, bid5) ∧
    (∀ o ∈ bid5 :: zeroAskBook.db.orders,
      o.FilledQuantity ≤ o.Quantity ∧ (UpdateOrderStatus o).Status = o.Status) ∧
    (ProcessOrder zeroAskBook none bid5).err = none ∧
    (ProcessOrder zeroAskBook none bid5).order.FilledQuantity = 0 ∧
    (ProcessOrder zeroAskBook none bid5).order.Status = OrderStatusPartiallyFilled ∧
    (UpdateOrderStatus (ProcessOrder zeroAskBook none bid5).order).Status =
      OrderStatusPending ∧
    (ProcessOrder zeroAskBook none bid5).matcher.db.orders =
      [exOrder 1 "SELL" "LIMIT" 0 0 10 "MATCHED" 1,
       exOrder 2 "BUY" "LIMIT" 5 0 10 "PARTIALLY_FILLED" 2] ∧
    (UpdateOrderStatus (exOrder 1 "SELL" "LIMIT" 0 0 10 "MATCHED" 1)).Status =
      OrderStatusPending := by
  decide

/-! ## C6 -/

theorem loopTrades_own (ms : List Order) : ∀ (o : Order) (t : Trade),
    t ∈ loopTrades o ms →
    (if o.Typ = OrderTypeBuy then t.BuyOrderID else t.SellOrderID) = o.ID := by
  induction ms with
  | nil => intro o t h; simp [loopTrades] at h
  | cons r rest ih =>
    intro o t h
    by_cases hg : o.FilledQuantity ≥ o.Quantity
    · simp [loopTrades, hg] at h
    · simp only [loopTrades, hg, if_false, List.mem_cons] at h
      rcases h with rfl | h
      · simp only [newTrade]; split_ifs <;> rfl
      · exact ih (applyFill o (tradeQuantity o r)) t h

/-- When every eligible resting order is a LIMIT order with a positive price
and remaining quantity, the incoming order has a positive price if it is a
LIMIT order, and the stored row of the incoming order has its side, every
trade `ProcessOrder` emits has positive quantity and price and two different
order ids. -/
theorem trades_valid_of_valid_orders (m : OrderMatcher) (failAt : Option Nat) (order : Order)
    (hown : ∀ row ∈ m.db.orders, row.ID = order.ID → row.Typ = order.Typ)
    (hoq : order.Quantity < uintSize)
    (hprice : order.Category = OrderCategoryLimit → 0 < order.Price)
    (hms : ∀ r ∈ matchingOrdersFor m.db order,
      r.FilledQuantity < r.Quantity ∧ r.Quantity < uintSize ∧
      r.Category = OrderCategoryLimit ∧ 0 < r.Price) :
    ∀ t ∈ emittedTrades m failAt order,
      0 < t.Quantity ∧ 0 < t.Price ∧ t.BuyOrderID ≠ t.SellOrderID := by
  intro t ht
  rw [emittedTrades_eq] at ht
  by_cases hok : (ProcessOrder m failAt order).err = none
  · rw [if_pos hok] at ht
    obtain ⟨i, hi⟩ := List.getElem?_of_mem ht
    obtain ⟨r, w, h1, -, -, h4, h5, h6, h7, -, -⟩ :=
      loop_index (matchingOrdersFor m.db order) order i t hoq hi
    have hr : r ∈ matchingOrdersFor m.db order := List.getElem?_mem h1
    obtain ⟨r1, r2, r3, r4⟩ := hms r hr
    have hne := matchingOrdersFor_ne m.db order hown r hr
    have hownid := loopTrades_own _ order t ht
    refine ⟨?_, ?_, ?_⟩
    · rw [h7, uintSub_of_le (Nat.le_of_lt r1) r2]
      unfold OrderMatching.min
      split_ifs <;> omega
    · rw [h5]
      unfold tradePrice
      split_ifs with c1 c2
      · exact r4
      · exact hprice c2
      · exact r4
    · intro e
      unfold restingID at h4
      by_cases hb : order.Typ = OrderTypeBuy
      · rw [if_pos hb] at h4 hownid
        exact hne (by rw [← h4, ← e, hownid])
      · rw [if_neg hb] at h4 hownid
        exact hne (by rw [← h4, e, hownid])
  · rw [if_neg hok] at ht
    simp at ht

/-- C6 (code at the failing inputs). Orders the submission path creates without
validation lead `ProcessOrder` to emit a trade of quantity 0 (a bid against a
resting ask of quantity 0) and a trade at price 0 (a market bid against a
resting ask at price 0); `ValidateTrade` returns `ErrInvalidQuantity` for the
first and `ErrInvalidStockPrice` for the second. In both stores the order ids
are unique and the eligible resting order is PENDING. -/
theorem C6_invalid_trades_emitted :
    (zeroAskBook.db.orders.map fun o => o.ID).Nodup ∧
    (∀ r ∈ matchingOrdersFor zeroAskBook.db bid5, r.Status = OrderStatusPending) ∧
    emittedTrades zeroAskBook none bid5 = [⟨2, 1, "NXTECH", 0, 10⟩] ∧
    ValidateTrade ⟨2, 1, "NXTECH", 0, 10⟩ = some ErrInvalidQuantity ∧
    orders.CreateOrder (exEngine []) none 1 (exRequest "SELL" "LIMIT" 5 0) =
      ({ zeroPriceBook with db := { zeroPriceBook.db with
          orders := [exOrder 1 "SELL" "LIMIT" 5 0 0 "PENDING" 1] } }, 200) ∧
    models.CreateOrder { zeroPriceBook.db with orders := [exOrder 1 "SELL" "LIMIT" 5 0 0 "PENDING" 1] }
      2 (orderOfRequest (exRequest "BUY" "MARKET" 5 0)) = (zeroPriceBook.db, marketBid5) ∧
    (zeroPriceBook.db.orders.map fun o => o.ID).Nodup ∧
    (∀ r ∈ matchingOrdersFor zeroPriceBook.db marketBid5, r.Status = OrderStatusPending) ∧
    emittedTrades zeroPriceBook none marketBid5 = [⟨2, 1, "NXTECH", 5, 0⟩] ∧
    ValidateTrade ⟨2, 1, "NXTECH", 5, 0⟩ = some ErrInvalidStockPrice := by
  decide

/-! ## C7 -/

/-- The loop either leaves the incoming order untouched or sets its status from
its filled quantity. -/
theorem loop_status_any (ms : List Order) : ∀ o : Order,
    loopOrder o ms = o ∨
    (loopOrder o ms).Status =
      if (loopOrder o ms).FilledQuantity ≥ o.Quantity then OrderStatusMatched
      else OrderStatusPartiallyFilled := by
  induction ms with
  | nil => intro o; exact Or.inl rfl
  | cons r rest ih =>
    intro o
    by_cases hg : o.FilledQuantity ≥ o.Quantity
    · left; simp [loopOrder, hg]
    · simp only [loopOrder, hg, if_false]
      right
      rcases ih (applyFill o (tradeQuantity o r)) with e | e
      · rw [e]; rfl
      · exact e

/-- A MARKET order that enters `ProcessOrder` with remaining quantity ends a
successful call MATCHED or CANCELLED, and no MARKET order is ever appended to
`BuyOrders` or `SellOrders`. -/
theorem market_order_with_remaining_settles (m : OrderMatcher) (failAt : Option Nat)
    (order : Order) (hok : (ProcessOrder m failAt order).err = none)
    (hcat : order.Category = OrderCategoryMarket) :
    (order.FilledQuantity < order.Quantity →
      (ProcessOrder m failAt order).order.Status = OrderStatusMatched ∨
      (ProcessOrder m failAt order).order.Status = OrderStatusCancelled) ∧
    (ProcessOrder m failAt order).matcher.BuyOrders = m.BuyOrders ∧
    (ProcessOrder m failAt order).matcher.SellOrders = m.SellOrders := by
  rw [ProcessOrder_success m failAt order hok]
  obtain ⟨hb, hs⟩ := successOutcome_lists m order
  refine ⟨?_, ?_, ?_⟩
  · intro hlt
    rw [successOutcome_order]
    split_ifs with hc
    · exact Or.inr rfl
    · left
      have hge : ¬ (loopOrder order (matchingOrdersFor m.db order)).FilledQuantity <
          order.Quantity := fun h => hc ⟨hcat, Or.inr h⟩
      rcases loop_status_any (matchingOrdersFor m.db order) order with e | e
      · rw [e] at hge; exact absurd hlt hge
      · rw [e, if_pos (by omega)]
  · rw [hb]; simp [hcat]
  · rw [hs]; simp [hcat]

/-- C7 (code at the failing input). A MARKET bid of quantity 0, as the
submission path creates it, passed to `ProcessOrder` while an ask rests: the
call succeeds and the order stays PENDING, in the caller's value and in the
store, and a later MARKET sell fetches it as an eligible resting order. With
an empty book the same call cancels the order. -/
theorem C7_zero_quantity_market_order_rests :
    orders.CreateOrder (exEngine []) none 1 (exRequest "SELL" "LIMIT" 5 10) =
      ({ askAndZeroMarketBid with db := { askAndZeroMarketBid.db with
          orders := [exOrder 1 "SELL" "LIMIT" 5 0 10 "PENDING" 1] } }, 200) ∧
    models.CreateOrder { askAndZeroMarketBid.db with
        orders := [exOrder 1 "SELL" "LIMIT" 5 0 10 "PENDING" 1] }
      2 (orderOfRequest (exRequest "BUY" "MARKET" 0 0)) =
      (askAndZeroMarketBid.db, marketBid0) ∧
    marketBid0.Category = OrderCategoryMarket ∧
    (ProcessOrder askAndZeroMarketBid none marketBid0).err = none ∧
    (ProcessOrder askAndZeroMarketBid none marketBid0).order.Status = OrderStatusPending ∧
    (ProcessOrder askAndZeroMarketBid none marketBid0).matcher = askAndZeroMarketBid ∧
    matchingOrdersFor (ProcessOrder askAndZeroMarketBid none marketBid0).matcher.db
        (exOrder 3 "SELL" "MARKET" 1 0 0 "PENDING" 0) =
      [exOrder 2 "BUY" "MARKET" 0 0 0 "PENDING" 2] ∧
    (ProcessOrder (exEngine [exOrder 2 "BUY" "MARKET" 0 0 0 "PENDING" 2]) none
      marketBid0).order.Status = OrderStatusCancelled := by
  decide

/-! ## C8 -/

/-- C8. A MARKET order with `FilledQuantity` 0 whose eligible opposite-side
sequence is empty: `ProcessOrder` succeeds when no store operation fails, and
every successful call leaves the order CANCELLED with `FilledQuantity` 0,
emits no trade, rewrites only the stored rows carrying the order's id (to
CANCELLED, filled 0) and leaves `BuyOrders` and `SellOrders` as they were. -/
theorem C8_market_order_empty_book (m : OrderMatcher) (order : Order)
    (hcat : order.Category = OrderCategoryMarket) (hf : order.FilledQuantity = 0)
    (hempty : matchingOrdersFor m.db order = []) :
    (ProcessOrder m none order).err = none ∧
    ∀ failAt : Option Nat, (ProcessOrder m failAt order).err = none →
      (ProcessOrder m failAt order).order.Status = OrderStatusCancelled ∧
      (ProcessOrder m failAt order).order.FilledQuantity = 0 ∧
      emittedTrades m failAt order = [] ∧
      (ProcessOrder m failAt order).matcher.db.trades = m.db.trades ∧
      (ProcessOrder m failAt order).matcher.db.orders = m.db.orders.map (fun row =>
        if row.ID = order.ID then
          { row with FilledQuantity := 0, Status := OrderStatusCancelled }
        else row) ∧
      (ProcessOrder m failAt order).matcher.BuyOrders = m.BuyOrders ∧
      (ProcessOrder m failAt order).matcher.SellOrders = m.SellOrders := by
  refine ⟨ProcessOrder_no_fault m order, ?_⟩
  intro failAt hok
  have hem : emittedTrades m failAt order = [] := by
    rw [emittedTrades_eq, if_pos hok, hempty]; rfl
  rw [hem, ProcessOrder_success m failAt order hok]
  unfold successOutcome
  rw [if_pos ⟨hcat, by rw [hempty]; rfl⟩]
  simp [updateRows, hf]

/-- Witness of C8: a market bid for 5 with no ask in the store. -/
theorem C8_witness :
    firstMarketBid.Category = OrderCategoryMarket ∧ firstMarketBid.FilledQuantity = 0 ∧
    matchingOrdersFor loneMarketBid.db firstMarketBid = [] ∧
    (ProcessOrder loneMarketBid none firstMarketBid).err = none ∧
    (ProcessOrder loneMarketBid none firstMarketBid).order.Status = OrderStatusCancelled ∧
    (ProcessOrder loneMarketBid none firstMarketBid).order.FilledQuantity = 0 ∧
    emittedTrades loneMarketBid none firstMarketBid = [] ∧
    (ProcessOrder loneMarketBid none firstMarketBid).matcher.db.trades =
      loneMarketBid.db.trades ∧
    (ProcessOrder loneMarketBid none firstMarketBid).matcher.db.orders =
      loneMarketBid.db.orders.map (fun row =>
        if row.ID = firstMarketBid.ID then
          { row with FilledQuantity := 0, Status := OrderStatusCancelled }
        else row) ∧
    (ProcessOrder loneMarketBid none firstMarketBid).matcher.BuyOrders =
      loneMarketBid.BuyOrders ∧
    (ProcessOrder loneMarketBid none firstMarketBid).matcher.SellOrders =
      loneMarketBid.SellOrders :=
  ⟨by decide, by decide, by decide,
   (C8_market_order_empty_book loneMarketBid firstMarketBid (by decide) (by decide)
      (by decide)).1,
   (C8_market_order_empty_book loneMarketBid firstMarketBid (by decide) (by decide)
      (by decide)).2 none (by decide)⟩

/-! ## C9 -/

/-- A LIMIT order that enters as the submission path creates it (status
PENDING, `FilledQuantity` 0), against eligible resting orders that each have
`FilledQuantity < Quantity`: if it ends a successful `ProcessOrder` with
`FilledQuantity < Quantity`, exactly one entry, the order with its final
`FilledQuantity` and status, is appended to `BuyOrders` for a BUY and to
`SellOrders` for a SELL, the other list and all earlier entries are as before,
and the status is PENDING if `FilledQuantity` is 0 and PARTIALLY_FILLED
otherwise; if it ends fully filled neither list changes. -/
theorem limit_remainder_rests (m : OrderMatcher) (failAt : Option Nat) (order : Order)
    (hok : (ProcessOrder m failAt order).err = none)
    (hcat : order.Category = OrderCategoryLimit)
    (hst : order.Status = OrderStatusPending) (hf : order.FilledQuantity = 0)
    (hoq : order.Quantity < uintSize)
    (hms : ∀ r ∈ matchingOrdersFor m.db order,
      r.FilledQuantity < r.Quantity ∧ r.Quantity < uintSize) :
    ((ProcessOrder m failAt order).order.FilledQuantity < order.Quantity →
      (order.Typ = OrderTypeBuy →
        (ProcessOrder m failAt order).matcher.BuyOrders =
          m.BuyOrders ++ [(ProcessOrder m failAt order).order] ∧
        (ProcessOrder m failAt order).matcher.SellOrders = m.SellOrders) ∧
      (order.Typ = OrderTypeSell →
        (ProcessOrder m failAt order).matcher.SellOrders =
          m.SellOrders ++ [(ProcessOrder m failAt order).order] ∧
        (ProcessOrder m failAt order).matcher.BuyOrders = m.BuyOrders) ∧
      ((ProcessOrder m failAt order).order.FilledQuantity = 0 →
        (ProcessOrder m failAt order).order.Status = OrderStatusPending) ∧
      ((ProcessOrder m failAt order).order.FilledQuantity ≠ 0 →
        (ProcessOrder m failAt order).order.Status = OrderStatusPartiallyFilled)) ∧
    (order.Quantity ≤ (ProcessOrder m failAt order).order.FilledQuantity →
      (ProcessOrder m failAt order).matcher.BuyOrders = m.BuyOrders ∧
      (ProcessOrder m failAt order).matcher.SellOrders = m.SellOrders) := by
  rw [ProcessOrder_success m failAt order hok]
  have hnm : order.Category ≠ OrderCategoryMarket := by rw [hcat]; decide
  have hord := successOutcome_order m order
  rw [if_neg (fun h => hnm h.1)] at hord
  obtain ⟨hb, hs⟩ := successOutcome_lists m order
  rw [hord]
  rw [hb, hs]
  have hstat := loop_status (matchingOrdersFor m.db order) order hoq hms
  constructor
  · intro hlt
    refine ⟨?_, ?_, ?_, ?_⟩
    · intro hty
      simp [hnm, hlt, hty]
    · intro hty
      have : order.Typ ≠ OrderTypeBuy := by rw [hty]; decide
      simp [hnm, hlt, this]
    · intro h0
      rcases hstat with ⟨-, e2⟩ | ⟨e1, -⟩
      · rw [e2, hst]
      · omega
    · intro h0
      rcases hstat with ⟨e1, -⟩ | ⟨-, e2⟩
      · rw [e1, hf] at h0; exact absurd rfl h0
      · rw [e2, if_neg (by omega)]
  · intro hge
    have : ¬ (loopOrder order (matchingOrdersFor m.db order)).FilledQuantity < order.Quantity := by
      omega
    simp [this]

/-- C9 (code at the failing input). The submission path accepts an ask of
quantity 0 and leaves it PENDING in the store. A LIMIT bid for 5 at 10, PENDING
with nothing filled, then matches it with a trade of quantity 0: `ProcessOrder`
succeeds, the bid ends with `FilledQuantity` 0 below its quantity and is
appended to `BuyOrders`, but the entry carries status PARTIALLY_FILLED, where
nothing was filled and `UpdateOrderStatus` derives PENDING. -/
theorem C9_zero_fill_rests_partially_filled :
    orders.CreateOrder (exEngine []) none 1 (exRequest "SELL" "LIMIT" 0 10) =
      (exEngine [exOrder 1 "SELL" "LIMIT" 0 0 10 "PENDING" 1], 200) ∧
    models.CreateOrder (exEngine [exOrder 1 "SELL" "LIMIT" 0 0 10 "PENDING" 1]).db 2
      (orderOfRequest (exRequest "BUY" "LIMIT" 5 10)) = (zeroAskBook.db, bid5) ∧
    bid5.Category = OrderCategoryLimit ∧
    bid5.Status = OrderStatusPending ∧ bid5.FilledQuantity = 0 ∧
    (ProcessOrder zeroAskBook none bid5).err = none ∧
    emittedTrades zeroAskBook none bid5 = [⟨2, 1, "NXTECH", 0, 10⟩] ∧
    (ProcessOrder zeroAskBook none bid5).order.FilledQuantity = 0 ∧
    (ProcessOrder zeroAskBook none bid5).order.FilledQuantity < bid5.Quantity ∧
    (ProcessOrder zeroAskBook none bid5).matcher.BuyOrders =
      zeroAskBook.BuyOrders ++ [exOrder 2 "BUY" "LIMIT" 5 0 10 "PARTIALLY_FILLED" 0] ∧
    (ProcessOrder zeroAskBook none bid5).matcher.SellOrders = zeroAskBook.SellOrders ∧
    (UpdateOrderStatus (exOrder 2 "BUY" "LIMIT" 5 0 10 "PARTIALLY_FILLED" 0)).Status =
      OrderStatusPending ∧
    ¬ ((ProcessOrder zeroAskBook none bid5).order.FilledQuantity = 0 →
        (ProcessOrder zeroAskBook none bid5).order.Status = OrderStatusPending) := by
  decide

/-- The example of the specification: LIMIT BUY 100 at 10 against one resting
LIMIT SELL 40 at 9 gives one trade of 40 at 9 and the bid rests, PARTIALLY_FILLED
with 40 filled, in `BuyOrders`. -/
theorem limit_remainder_rests_example :
    (ProcessOrder oneAsk none bid100).err = none ∧
    emittedTrades oneAsk none bid100 = [⟨2, 1, "NXTECH", 40, 9⟩] ∧
    (ProcessOrder oneAsk none bid100).order.FilledQuantity = 40 ∧
    (ProcessOrder oneAsk none bid100).matcher.BuyOrders =
      oneAsk.BuyOrders ++ [(ProcessOrder oneAsk none bid100).order] ∧
    (ProcessOrder oneAsk none bid100).matcher.SellOrders = oneAsk.SellOrders ∧
    (ProcessOrder oneAsk none bid100).order.Status = OrderStatusPartiallyFilled :=
  ⟨by decide, by decide, by decide,
   ((limit_remainder_rests oneAsk none bid100 (by decide) (by decide) (by decide)
      (by decide) (by decide) (by decide)).1 (by decide)).1 (by decide) |>.1,
   ((limit_remainder_rests oneAsk none bid100 (by decide) (by decide) (by decide)
      (by decide) (by decide) (by decide)).1 (by decide)).1 (by decide) |>.2,
   ((limit_remainder_rests oneAsk none bid100 (by decide) (by decide) (by decide)
      (by decide) (by decide) (by decide)).1 (by decide)).2.2.2 (by decide)⟩

/-! ## C10 -/

/-- C10 (code at the failing input). A LIMIT bid for 5 with no eligible ask,
when the commit, or the final update, fails: `ProcessOrder` returns the error
and the database is as before, but `BuyOrders`, empty before the call, holds
the order. The same through the submission path: the request is answered 500
and the engine keeps the entry. -/
theorem C10_book_entry_survives_rollback :
    loneBid.BuyOrders = [] ∧
    (ProcessOrder loneBid (some 3) firstBid).err = some "failed to commit transaction" ∧
    (ProcessOrder loneBid (some 3) firstBid).matcher.db = loneBid.db ∧
    (ProcessOrder loneBid (some 3) firstBid).matcher.BuyOrders = [firstBid] ∧
    (ProcessOrder loneBid (some 2) firstBid).err = some "failed to update order" ∧
    (ProcessOrder loneBid (some 2) firstBid).matcher.db = loneBid.db ∧
    (ProcessOrder loneBid (some 2) firstBid).matcher.BuyOrders = [firstBid] ∧
    orders.CreateOrder (exEngine []) (some 5) 1 (exRequest "BUY" "LIMIT" 5 10) =
      ({ loneBid with BuyOrders := [firstBid] }, 500) := by
  decide

/-! ## C11 -/

/-- C11 (code at the failing inputs). `ProcessOrder` rejects nothing: for every
engine and every order it returns no error when no store operation fails. A
LIMIT bid of quantity 0 is processed and stored PENDING; a LIMIT ask at price 0
is processed and inserted into `SellOrders`; both are what the submission path
hands to the engine for such requests, answered 200. -/
theorem C11_no_defensive_rejection :
    (∀ (m : OrderMatcher) (order : Order), (ProcessOrder m none order).err = none) ∧
    zeroBid.Quantity = 0 ∧
    (ProcessOrder loneZeroBid none zeroBid).err = none ∧
    (ProcessOrder loneZeroBid none zeroBid).matcher.db.orders =
      [exOrder 1 "BUY" "LIMIT" 0 0 10 "PENDING" 1] ∧
    orders.CreateOrder (exEngine []) none 1 (exRequest "BUY" "LIMIT" 0 10) =
      (loneZeroBid, 200) ∧
    zeroPriceAsk.Category = OrderCategoryLimit ∧ zeroPriceAsk.Price ≤ 0 ∧
    (ProcessOrder loneZeroPriceAsk none zeroPriceAsk).err = none ∧
    (ProcessOrder loneZeroPriceAsk none zeroPriceAsk).matcher.SellOrders =
      loneZeroPriceAsk.SellOrders ++ [zeroPriceAsk] ∧
    orders.CreateOrder (exEngine []) none 1 (exRequest "SELL" "LIMIT" 5 0) =
      ({ loneZeroPriceAsk with SellOrders := [zeroPriceAsk] }, 200) :=
  ⟨ProcessOrder_no_fault, by decide, by decide, by decide, by decide, by decide, by decide,
   by decide, by decide, by decide⟩

/-! ## C12 -/

/-- C12. A successful `CancelOrder` for an order whose id is in the store and
occurs at most once in the in-memory list of its side: the stored rows with
that id are CANCELLED, so no later fetch of eligible resting orders returns
the order; the list of its side (`BuyOrders` for a BUY, `SellOrders`
otherwise) is the old list without the entries of that id, the others in
their previous order; the opposite list is unchanged. `CancelOrder` succeeds
whenever no store operation fails, whether or not the order is in the list. -/
theorem C12_cancel_effect (m : OrderMatcher) (failAt : Option Nat) (order : Order)
    (hok : (CancelOrder m failAt order).err = none)
    (hstore : ∃ row ∈ m.db.orders, row.ID = order.ID)
    (honce : ((if order.Typ = OrderTypeBuy then m.BuyOrders else m.SellOrders).countP
      fun e => decide (e.ID = order.ID)) ≤ 1) :
    (∃ row ∈ (CancelOrder m failAt order).matcher.db.orders, row.ID = order.ID) ∧
    (∀ row ∈ (CancelOrder m failAt order).matcher.db.orders, row.ID = order.ID →
      row.Status = OrderStatusCancelled) ∧
    (∀ incoming : Order,
      ∀ r ∈ matchingOrdersFor (CancelOrder m failAt order).matcher.db incoming,
        r.ID ≠ order.ID) ∧
    (order.Typ = OrderTypeBuy →
      (∀ e ∈ (CancelOrder m failAt order).matcher.BuyOrders, e.ID ≠ order.ID) ∧
      (CancelOrder m failAt order).matcher.BuyOrders =
        m.BuyOrders.filter (fun e => decide (e.ID ≠ order.ID)) ∧
      (CancelOrder m failAt order).matcher.SellOrders = m.SellOrders) ∧
    (order.Typ ≠ OrderTypeBuy →
      (∀ e ∈ (CancelOrder m failAt order).matcher.SellOrders, e.ID ≠ order.ID) ∧
      (CancelOrder m failAt order).matcher.SellOrders =
        m.SellOrders.filter (fun e => decide (e.ID ≠ order.ID)) ∧
      (CancelOrder m failAt order).matcher.BuyOrders = m.BuyOrders) ∧
    (CancelOrder m none order).err = none := by
  obtain ⟨hdb, hb, hs, -⟩ := CancelOrder_success m failAt order hok
  have hrows : (CancelOrder m failAt order).matcher.db.orders =
      m.db.orders.map fun r => updateRow r { order with Status := OrderStatusCancelled } := by
    rw [hdb]; rfl
  have hcanc : ∀ row ∈ (CancelOrder m failAt order).matcher.db.orders, row.ID = order.ID →
      row.Status = OrderStatusCancelled := by
    intro row hrow hid
    rw [hrows] at hrow
    obtain ⟨row0, -, rfl⟩ := List.mem_map.mp hrow
    rw [updateRow_ID] at hid
    simp [updateRow, hid]
  refine ⟨?_, hcanc, ?_, ?_, ?_, CancelOrder_no_fault m order⟩
  · obtain ⟨row, hrow, hid⟩ := hstore
    rw [hrows]
    exact ⟨_, List.mem_map_of_mem _ hrow, by rw [updateRow_ID]; exact hid⟩
  · intro incoming r hr e
    obtain ⟨row, hrow, rfl, -, -, hst⟩ := mem_matchingOrdersFor _ incoming r hr
    have hc := hcanc row hrow e
    rw [hc] at hst
    revert hst
    decide
  · intro hty
    rw [if_pos hty] at honce hb
    rw [if_pos hty] at hs
    rw [hb, hs, removeFirst_eq_filter _ _ honce]
    refine ⟨?_, rfl, rfl⟩
    intro e he
    simpa using (List.mem_filter.mp he).2
  · intro hty
    rw [if_neg hty] at honce hb
    rw [if_neg hty] at hs
    rw [hb, hs, removeFirst_eq_filter _ _ honce]
    refine ⟨?_, rfl, rfl⟩
    intro e he
    simpa using (List.mem_filter.mp he).2

/-- Witness of C12: cancelling the resting bid read from the store. -/
theorem C12_witness :
    (CancelOrder restingBid none restingBidRef).err = none ∧
    (∃ row ∈ restingBid.db.orders, row.ID = restingBidRef.ID) ∧
    ((if restingBidRef.Typ = OrderTypeBuy then restingBid.BuyOrders
      else restingBid.SellOrders).countP fun e => decide (e.ID = restingBidRef.ID)) ≤ 1 ∧
    (CancelOrder restingBid none restingBidRef).matcher.db.orders =
      [exOrder 1 "BUY" "LIMIT" 5 0 10 "CANCELLED" 1] ∧
    (∀ row ∈ (CancelOrder restingBid none restingBidRef).matcher.db.orders,
      row.ID = restingBidRef.ID → row.Status = OrderStatusCancelled) ∧
    ((∀ e ∈ (CancelOrder restingBid none restingBidRef).matcher.BuyOrders,
        e.ID ≠ restingBidRef.ID) ∧
      (CancelOrder restingBid none restingBidRef).matcher.BuyOrders =
        restingBid.BuyOrders.filter (fun e => decide (e.ID ≠ restingBidRef.ID)) ∧
      (CancelOrder restingBid none restingBidRef).matcher.SellOrders =
        restingBid.SellOrders) :=
  ⟨by decide, by decide, by decide, by decide,
   (C12_cancel_effect restingBid none restingBidRef (by decide) (by decide)
      (by decide)).2.1,
   (C12_cancel_effect restingBid none restingBidRef (by decide) (by decide)
      (by decide)).2.2.2.1 (by decide)⟩

/-! ## C13 -/

/-- When the reference handed to `CancelOrder` carries the stored
`FilledQuantity`, a successful call leaves every stored `FilledQuantity` as it
was. -/
theorem cancel_keeps_filled_of_fresh (m : OrderMatcher) (failAt : Option Nat) (order : Order)
    (hok : (CancelOrder m failAt order).err = none)
    (hfresh : ∀ row ∈ m.db.orders, row.ID = order.ID →
      row.FilledQuantity = order.FilledQuantity) :
    (CancelOrder m failAt order).matcher.db.orders.map (fun row => row.FilledQuantity) =
      m.db.orders.map (fun row => row.FilledQuantity) := by
  obtain ⟨hdb, -, -, -⟩ := CancelOrder_success m failAt order hok
  rw [hdb]
  simp only [updateRows, List.map_map]
  apply List.map_congr_left
  intro row hrow
  simp only [Function.comp]
  split_ifs with h
  · exact (hfresh row hrow h).symm
  · rfl

/-- C13 (code at the failing input). A cancel request reads the resting ask
(filled 0) from the store; a bid then takes 10 of the ask in `ProcessOrder`, so
the store holds `filled_quantity` 10 for it; `CancelOrder` on the reference
read before succeeds and writes `filled_quantity` 0 back, while the trade of
10 stays recorded. -/
theorem C13_stale_reference_overwrites_fill :
    Reachable askResting ∧
    models.GetOrderByID askResting.db 1 = some staleAskRef ∧
    Reachable askPartlyFilled ∧
    askPartlyFilled.db.orders =
      [exOrder 1 "SELL" "LIMIT" 40 10 9 "PARTIALLY_FILLED" 1,
       exOrder 2 "BUY" "LIMIT" 10 10 10 "MATCHED" 2] ∧
    askPartlyFilled.db.trades = [⟨2, 1, "NXTECH", 10, 9⟩] ∧
    (CancelOrder askPartlyFilled none staleAskRef).err = none ∧
    (CancelOrder askPartlyFilled none staleAskRef).matcher.db.orders =
      [exOrder 1 "SELL" "LIMIT" 40 0 9 "CANCELLED" 1,
       exOrder 2 "BUY" "LIMIT" 10 10 10 "MATCHED" 2] ∧
    (CancelOrder askPartlyFilled none staleAskRef).matcher.db.trades =
      [⟨2, 1, "NXTECH", 10, 9⟩] :=
  ⟨Reachable.submit none 1 _ (Reachable.start [nxtech]) (by decide),
   by decide,
   Reachable.submit none 2 _
     (Reachable.submit none 1 _ (Reachable.start [nxtech]) (by decide)) (by decide),
   by decide, by decide, by decide, by decide, by decide⟩

/-! ## C14 -/

theorem mem_of_mem_removeFirst (id : Nat) (l : List Order) :
    ∀ e ∈ removeFirst id l, e ∈ l := by
  induction l with
  | nil => intro e h; simp [removeFirst] at h
  | cons o rest ih =>
    intro e h
    by_cases ho : o.ID = id
    · simp only [removeFirst, ho, if_true] at h
      exact List.mem_cons_of_mem _ h
    · simp only [removeFirst, ho, if_false, List.mem_cons] at h
      rcases h with rfl | h
      · exact List.mem_cons_self _ _
      · exact List.mem_cons_of_mem _ (ih e h)

/-- What a successful `ProcessOrder` keeps of a property of the list entries:
it only appends an order that is not a MARKET order and has remaining
quantity. -/
theorem ProcessOrder_entries (m : OrderMatcher) (failAt : Option Nat) (order : Order)
    (hok : (ProcessOrder m failAt order).err = none)
    (h : ∀ e ∈ m.BuyOrders ++ m.SellOrders,
      e.FilledQuantity < e.Quantity ∧ e.Category ≠ OrderCategoryMarket) :
    ∀ e ∈ (ProcessOrder m failAt order).matcher.BuyOrders ++
        (ProcessOrder m failAt order).matcher.SellOrders,
      e.FilledQuantity < e.Quantity ∧ e.Category ≠ OrderCategoryMarket := by
  rw [ProcessOrder_success m failAt order hok]
  obtain ⟨hb, hs⟩ := successOutcome_lists m order
  obtain ⟨-, -, hcat, -, hq, -⟩ := loopOrder_static (matchingOrdersFor m.db order) order
  have hnew : order.Category ≠ OrderCategoryMarket →
      (loopOrder order (matchingOrdersFor m.db order)).FilledQuantity < order.Quantity →
      (loopOrder order (matchingOrdersFor m.db order)).FilledQuantity <
        (loopOrder order (matchingOrdersFor m.db order)).Quantity ∧
      (loopOrder order (matchingOrdersFor m.db order)).Category ≠ OrderCategoryMarket := by
    intro h1 h2
    rw [hq, hcat]
    exact ⟨h2, h1⟩
  intro e he
  rw [hb, hs] at he
  rcases List.mem_append.mp he with he | he
  · split_ifs at he with hc
    · rcases List.mem_append.mp he with he | he
      · exact h e (List.mem_append_left _ he)
      · rw [List.mem_singleton.mp he]
        exact hnew hc.1 hc.2.1
    · exact h e (List.mem_append_left _ he)
  · split_ifs at he with hc
    · rcases List.mem_append.mp he with he | he
      · exact h e (List.mem_append_right _ he)
      · rw [List.mem_singleton.mp he]
        exact hnew hc.1 hc.2.1
    · exact h e (List.mem_append_right _ he)

/-- In every reachable state each entry of `BuyOrders` and `SellOrders` is, in
its own recorded fields, an order with `FilledQuantity < Quantity` that is not
a MARKET order. -/
theorem reachable_entries (m : OrderMatcher) (hr : Reachable m) :
    ∀ e ∈ m.BuyOrders ++ m.SellOrders,
      e.FilledQuantity < e.Quantity ∧ e.Category ≠ OrderCategoryMarket := by
  induction hr with
  | start stocks => intro e he; simp [GetOrderMatcher] at he
  | @submit m failAt now req _ h200 ih =>
    unfold orders.CreateOrder at h200 ⊢
    cases h1 : tick failAt with
    | none => simp [h1] at h200
    | some f1 =>
      simp only [h1] at h200 ⊢
      cases h2 : models.GetStockBySymbol m.db req.StockSymbol with
      | none => simp [h2] at h200
      | some s =>
        simp only [h2] at h200 ⊢
        cases h3 : tick f1 with
        | none => simp [h3] at h200
        | some f2 =>
          simp only [h3] at h200 ⊢
          cases h4 : (ProcessOrder
              { m with db := (models.CreateOrder m.db now (orderOfRequest req)).1 } f2
              (models.CreateOrder m.db now (orderOfRequest req)).2).err with
          | some e => simp [h4] at h200
          | none =>
            have key := ProcessOrder_entries
              { m with db := (models.CreateOrder m.db now (orderOfRequest req)).1 } f2
              (models.CreateOrder m.db now (orderOfRequest req)).2 h4 ih
            simp only [h4]
            split <;> exact key
  | @cancel m failAt id _ h200 ih =>
    unfold orders.CancelOrder at h200 ⊢
    cases h1 : tick failAt with
    | none => simp [h1] at h200
    | some f1 =>
      simp only [h1] at h200 ⊢
      cases h2 : tick f1 with
      | none => simp [h2] at h200
      | some f2 =>
        simp only [h2] at h200 ⊢
        cases h3 : models.GetOrderByID m.db id with
        | none => simp [h3] at h200
        | some order =>
          simp only [h3] at h200 ⊢
          cases h4 : (CancelOrder m f2 order).err with
          | some e => simp [h4] at h200
          | none =>
            obtain ⟨-, hb, hs, -⟩ := CancelOrder_success m f2 order h4
            simp only [h4]
            intro e he
            rw [hb, hs] at he
            apply ih
            rcases List.mem_append.mp he with he | he
            · apply List.mem_append_left
              split_ifs at he
              · exact mem_of_mem_removeFirst _ _ e he
              · exact he
            · apply List.mem_append_right
              split_ifs at he
              · exact he
              · exact mem_of_mem_removeFirst _ _ e he

/-- C14 (code at the failing input). After a bid for 5 at 10 and an ask for 5
at 10 are submitted to a newly created engine, both requests answered 200,
`BuyOrders` still holds the entry of the bid although its stored status is
MATCHED and its stored remaining quantity is 0. -/
theorem C14_filled_order_stays_listed :
    Reachable bidThenAsk ∧
    bidThenAsk.BuyOrders = [exOrder 1 "BUY" "LIMIT" 5 0 10 "PENDING" 0] ∧
    bidThenAsk.db.orders =
      [exOrder 1 "BUY" "LIMIT" 5 5 10 "MATCHED" 1,
       exOrder 2 "SELL" "LIMIT" 5 5 10 "MATCHED" 2] ∧
    ¬ (∀ e ∈ bidThenAsk.BuyOrders, ∀ row ∈ bidThenAsk.db.orders, row.ID = e.ID →
        (row.Status = OrderStatusPending ∨ row.Status = OrderStatusPartiallyFilled) ∧
        0 < row.Quantity - row.FilledQuantity) :=
  ⟨Reachable.submit none 2 _
     (Reachable.submit none 1 _ (Reachable.start [nxtech]) (by decide)) (by decide),
   by decide, by decide, by decide⟩

/-! ## C15 -/

theorem isValidStockSymbol_iff (s : StockSymbol) :
    isValidStockSymbol s = true ↔ s ∈ GetAllStockSymbols := by
  unfold isValidStockSymbol
  rw [List.any_eq_true]
  constructor
  · rintro ⟨x, hx, he⟩
    have : x = s := by simpa using he
    exact this ▸ hx
  · intro h
    exact ⟨s, h, by simp⟩

/-- `ValidateOrder` returns nil exactly for an order with a valid side,
category, symbol, a positive price if it is a LIMIT order, and a positive
quantity; otherwise it returns the error of the first failing check. -/
theorem ValidateOrder_spec (o : Order) :
    (ValidateOrder o = none ↔
      (o.Typ = OrderTypeBuy ∨ o.Typ = OrderTypeSell) ∧
      (o.Category = OrderCategoryLimit ∨ o.Category = OrderCategoryMarket) ∧
      o.StockSymbol ∈ GetAllStockSymbols ∧
      (o.Category = OrderCategoryLimit → 0 < o.Price) ∧
      0 < o.Quantity) ∧
    (¬ (o.Typ = OrderTypeBuy ∨ o.Typ = OrderTypeSell) →
      ValidateOrder o = some ErrInvalidOrderType) ∧
    ((o.Typ = OrderTypeBuy ∨ o.Typ = OrderTypeSell) →
      ¬ (o.Category = OrderCategoryLimit ∨ o.Category = OrderCategoryMarket) →
      ValidateOrder o = some ErrInvalidOrderCategory) ∧
    ((o.Typ = OrderTypeBuy ∨ o.Typ = OrderTypeSell) →
      (o.Category = OrderCategoryLimit ∨ o.Category = OrderCategoryMarket) →
      o.StockSymbol ∉ GetAllStockSymbols →
      ValidateOrder o = some ErrInvalidStockSymbol) ∧
    ((o.Typ = OrderTypeBuy ∨ o.Typ = OrderTypeSell) →
      (o.Category = OrderCategoryLimit ∨ o.Category = OrderCategoryMarket) →
      o.StockSymbol ∈ GetAllStockSymbols →
      (o.Category = OrderCategoryLimit ∧ o.Price ≤ 0) →
      ValidateOrder o = some ErrInvalidPrice) ∧
    ((o.Typ = OrderTypeBuy ∨ o.Typ = OrderTypeSell) →
      (o.Category = OrderCategoryLimit ∨ o.Category = OrderCategoryMarket) →
      o.StockSymbol ∈ GetAllStockSymbols →
      ¬ (o.Category = OrderCategoryLimit ∧ o.Price ≤ 0) →
      o.Quantity = 0 →
      ValidateOrder o = some ErrInvalidQuantity) := by
  have hsym := isValidStockSymbol_iff o.StockSymbol
  refine ⟨?_, ?_, ?_, ?_, ?_, ?_⟩
  · unfold ValidateOrder
    constructor
    · intro h
      split_ifs at h with h1 h2 h3 h4 h5
      refine ⟨h1, h2, ?_, ?_, ?_⟩
      · apply hsym.mp
        simpa using h3
      · intro hc
        by_contra hp
        exact h4 ⟨hc, by omega⟩
      · omega
    · rintro ⟨h1, h2, h3, h4, h5⟩
      have h3' : isValidStockSymbol o.StockSymbol = true := hsym.mpr h3
      have h4' : ¬ (o.Category = OrderCategoryLimit ∧ o.Price ≤ 0) := by
        rintro ⟨hc, hp⟩; have := h4 hc; omega
      have h5' : ¬ o.Quantity ≤ 0 := by omega
      simp only [h1, h2, h3', h4', h5', not_true_eq_false, if_false, Bool.not_true,
        Bool.false_eq_true]
  · intro h1
    simp only [ValidateOrder, h1, not_false_eq_true, if_true]
  · intro h1 h2
    simp only [ValidateOrder, h1, h2, not_true_eq_false, not_false_eq_true, if_false, if_true]
  · intro h1 h2 h3
    have h3' : isValidStockSymbol o.StockSymbol = false := by
      cases hv : isValidStockSymbol o.StockSymbol with
      | false => rfl
      | true => exact absurd (hsym.mp hv) h3
    simp only [ValidateOrder, h1, h2, h3', not_true_eq_false, if_false, Bool.not_false, if_true]
  · intro h1 h2 h3 h4
    have h3' : isValidStockSymbol o.StockSymbol = true := hsym.mpr h3
    unfold ValidateOrder
    rw [if_neg (not_not.mpr h1), if_neg (not_not.mpr h2), h3']
    simp only [Bool.not_true, Bool.false_eq_true, if_false]
    rw [if_pos h4]
  · intro h1 h2 h3 h4 h5
    have h3' : isValidStockSymbol o.StockSymbol = true := hsym.mpr h3
    have h5' : o.Quantity ≤ 0 := by omega
    simp only [ValidateOrder, h1, h2, h3', not_true_eq_false, if_false, Bool.not_true,
      Bool.false_eq_true, h4, h5', if_true]

/-- C15 (code at the failing inputs). Requests with a quantity of 0, a LIMIT
price of 0, a side that is neither BUY nor SELL and a category that is neither
LIMIT nor MARKET: `ValidateOrder` returns its error for the order built from
each, yet `CreateOrder` stores each order, passes it to `ProcessOrder` and
answers 200. -/
theorem C15_submission_path_does_not_validate :
    ValidateOrder (orderOfRequest (exRequest "BUY" "LIMIT" 0 10)) = some ErrInvalidQuantity ∧
    orders.CreateOrder (exEngine []) none 1 (exRequest "BUY" "LIMIT" 0 10) =
      (exEngine [exOrder 1 "BUY" "LIMIT" 0 0 10 "PENDING" 1], 200) ∧
    ValidateOrder (orderOfRequest (exRequest "SELL" "LIMIT" 5 0)) = some ErrInvalidPrice ∧
    orders.CreateOrder (exEngine []) none 1 (exRequest "SELL" "LIMIT" 5 0) =
      ({ exEngine [exOrder 1 "SELL" "LIMIT" 5 0 0 "PENDING" 1] with
          SellOrders := [exOrder 1 "SELL" "LIMIT" 5 0 0 "PENDING" 0] }, 200) ∧
    ValidateOrder (orderOfRequest (exRequest "HOLD" "LIMIT" 5 10)) =
      some ErrInvalidOrderType ∧
    orders.CreateOrder (exEngine []) none 1 (exRequest "HOLD" "LIMIT" 5 10) =
      ({ exEngine [exOrder 1 "HOLD" "LIMIT" 5 0 10 "PENDING" 1] with
          SellOrders := [exOrder 1 "HOLD" "LIMIT" 5 0 10 "PENDING" 0] }, 200) ∧
    ValidateOrder (orderOfRequest (exRequest "BUY" "STOP" 5 10)) =
      some ErrInvalidOrderCategory ∧
    orders.CreateOrder (exEngine []) none 1 (exRequest "BUY" "STOP" 5 10) =
      ({ exEngine [exOrder 1 "BUY" "STOP" 5 0 10 "PENDING" 1] with
          BuyOrders := [exOrder 1 "BUY" "STOP" 5 0 10 "PENDING" 0] }, 200) := by
  decide

/-! ## C17 -/

/-- C17 (code at the failing input). After a bid at 10 and then a bid at 11 are
submitted to a newly created engine, both requests answered 200, `BuyOrders`
holds them in arrival order, the lower price first: it is not sorted by price
descending. -/
theorem C17_book_in_arrival_order :
    Reachable twoBids ∧
    twoBids.BuyOrders =
      [exOrder 1 "BUY" "LIMIT" 5 0 10 "PENDING" 0, exOrder 2 "BUY" "LIMIT" 5 0 11 "PENDING" 0] ∧
    ¬ twoBids.BuyOrders.Pairwise bidBefore :=
  ⟨Reachable.submit none 2 _
     (Reachable.submit none 1 _ (Reachable.start [nxtech]) (by decide)) (by decide),
   by decide, by decide⟩

/-! ## C18 -/

/-- The price bound of the fetch for a LIMIT order. -/
theorem matchingOrdersFor_price (db : Store) (order r : Order)
    (hcat : order.Category = OrderCategoryLimit) (h : r ∈ matchingOrdersFor db order) :
    (order.Typ = OrderTypeBuy → r.Price ≤ order.Price) ∧
    (order.Typ ≠ OrderTypeBuy → order.Price ≤ r.Price) := by
  unfold matchingOrdersFor at h
  by_cases hb : order.Typ = OrderTypeBuy
  · rw [if_pos hb] at h
    have h' := (sellRows_perm db.orders order).mem_iff.mp h
    simp only [List.mem_map, List.mem_filter] at h'
    obtain ⟨row, ⟨-, he⟩, rfl⟩ := h'
    simp only [sellEligible, hcat, if_true, Bool.and_eq_true, decide_eq_true_eq] at he
    exact ⟨fun _ => he.2, fun hn => absurd hb hn⟩
  · rw [if_neg hb] at h
    have h' := (buyRows_perm db.orders order).mem_iff.mp h
    simp only [List.mem_map, List.mem_filter] at h'
    obtain ⟨row, ⟨-, he⟩, rfl⟩ := h'
    simp only [buyEligible, hcat, if_true, Bool.and_eq_true, decide_eq_true_eq] at he
    exact ⟨fun hn => absurd hn hb, fun _ => he.2⟩

/-- C18. For an incoming LIMIT order whose fetched eligible resting orders are
all LIMIT orders, every trade `ProcessOrder` emits is against one of them at
that resting order's own `Price`, which is at most the incoming order's `Price`
for a BUY and at least the incoming order's `Price` for a SELL. -/
theorem C18_no_trade_worse_than_limit (m : OrderMatcher) (failAt : Option Nat)
    (order : Order) (hcat : order.Category = OrderCategoryLimit)
    (hms : ∀ r ∈ matchingOrdersFor m.db order, r.Category = OrderCategoryLimit) :
    ∀ t ∈ emittedTrades m failAt order, ∃ r ∈ matchingOrdersFor m.db order,
      restingID order t = r.ID ∧ t.Price = r.Price ∧
      (order.Typ = OrderTypeBuy → t.Price ≤ order.Price) ∧
      (order.Typ = OrderTypeSell → order.Price ≤ t.Price) := by
  intro t ht
  rw [emittedTrades_eq] at ht
  by_cases hok : (ProcessOrder m failAt order).err = none
  · rw [if_pos hok] at ht
    obtain ⟨r, hr, h1, h2⟩ := loopTrades_mem _ order t ht
    have hp : t.Price = r.Price := by
      rw [h2]; simp [tradePrice, hcat, hms r hr]
    obtain ⟨b1, b2⟩ := matchingOrdersFor_price m.db order r hcat hr
    refine ⟨r, hr, h1, hp, ?_, ?_⟩
    · intro hb; rw [hp]; exact b1 hb
    · intro hs
      have : order.Typ ≠ OrderTypeBuy := by rw [hs]; decide
      rw [hp]; exact b2 this
  · rw [if_neg hok] at ht
    simp at ht

/-- Witness of C18: LIMIT BUY 100 at 10 against the resting LIMIT SELL 40 at 9
trades at 9. -/
theorem C18_witness :
    bid100.Category = OrderCategoryLimit ∧
    (∀ r ∈ matchingOrdersFor oneAsk.db bid100, r.Category = OrderCategoryLimit) ∧
    emittedTrades oneAsk none bid100 = [⟨2, 1, "NXTECH", 40, 9⟩] ∧
    ∃ r ∈ matchingOrdersFor oneAsk.db bid100,
      restingID bid100 ⟨2, 1, "NXTECH", 40, 9⟩ = r.ID ∧
      (⟨2, 1, "NXTECH", 40, 9⟩ : Trade).Price = r.Price ∧
      (bid100.Typ = OrderTypeBuy →
        (⟨2, 1, "NXTECH", 40, 9⟩ : Trade).Price ≤ bid100.Price) ∧
      (bid100.Typ = OrderTypeSell →
        bid100.Price ≤ (⟨2, 1, "NXTECH", 40, 9⟩ : Trade).Price) :=
  ⟨by decide, by decide, by decide,
   C18_no_trade_worse_than_limit oneAsk none bid100 (by decide) (by decide)
     ⟨2, 1, "NXTECH", 40, 9⟩ (by decide)⟩

end OrderMatching
